import Mathlib

/-!
Verification development for the Document-analyzer repository.

This file gives a shallow embedding of the algorithmic core of the
repository — the TF-IDF vector store (`src/vector_store.py`), the text
chunker (`src/document_processor.py`) and the structured mind-map
generation pipeline (`src/mindmap_generator.py`) — and proves or refutes
the specification claims about them.

Modelling conventions:
* Python strings are `String`/`List Char`; Python ints are `Int` (or `ℕ`
  where the source value is provably non-negative); floats are `ℚ`.
* Fallible Python code (broad `try/except`) is modelled with `Option`:
  `none` marks the paths on which the source raises and the surrounding
  handler turns the exception into an error return.
* The sklearn vectorizer and cosine similarity are numeric black boxes;
  they are abstracted as function parameters (`fitV`, `fitT`, `trans`,
  `sim`).  No law about them is assumed.
* UI calls (streamlit `st.*`) and the plotly/pyvis visualisation builders
  are side-effect-free progress output in the source and are omitted.
-/

namespace DocAnalyzer

/-! ## Python string primitives -/

/-- Whitespace recognised by Python `str.strip()` / `str.split()` (ASCII part). -/
def pyIsSpace (c : Char) : Bool :=
  [' ', '\t', '\n', '\r', '\x0b', '\x0c'].contains c

/-- Python `str.strip()` on a character list. -/
def stripChars (l : List Char) : List Char :=
  ((l.dropWhile pyIsSpace).reverse.dropWhile pyIsSpace).reverse

/-- Python `str.strip()`. -/
def pyStrip (s : String) : String :=
  String.mk (stripChars s.data)

/-- Number of whitespace-separated words, Python `len(s.split())`. -/
def wordCount (l : List Char) : ℕ :=
  ((l.splitOnP pyIsSpace).filter (fun w => !w.isEmpty)).length

/-- Python slice `l[a:b]` for int indices (negative indices count from the end). -/
def pySlice (l : List Char) (a b : Int) : List Char :=
  let n : Int := l.length
  let a' : Int := if a < 0 then max (n + a) 0 else min a n
  let b' : Int := if b < 0 then max (n + b) 0 else min b n
  if a' < b' then (l.drop a'.toNat).take (b' - a').toNat else []

/-- Python `l[i]` for the in-range reads performed by the chunker.  The
source raises `IndexError` out of range; every use below is guarded so the
default is never consulted on a reachable state. -/
def pyCharAt (l : List Char) (i : Int) : Char :=
  if h : 0 ≤ i ∧ i.toNat < l.length then l.get ⟨i.toNat, h.2⟩ else ' '

/-! ## Dynamic JSON values

`json.loads` output is modelled by a generic tree of values.  Python dicts
are insertion-ordered key/value lists whose keys are unique. -/

inductive JVal : Type where
  | null : JVal
  | bool : Bool → JVal
  | num : ℚ → JVal
  | str : String → JVal
  | arr : List JVal → JVal
  | obj : List (String × JVal) → JVal

/-- Equality test for the hashable JSON primitives (the only values the
pipeline ever uses as dict keys; list/dict keys raise `TypeError` in Python
and are guarded before any lookup below). -/
def jPrimEq : JVal → JVal → Bool
  | .null, .null => true
  | .bool a, .bool b => a == b
  | .num a, .num b => a == b
  | .str a, .str b => a == b
  | _, _ => false

/-- Values Python can use as dict keys (hashable). -/
def jHashable : JVal → Bool
  | .arr _ => false
  | .obj _ => false
  | _ => true

/-- Key lookup in a parsed JSON object (Python `d[k]` / `k in d`). -/
def jFind (fields : List (String × JVal)) (k : String) : Option JVal :=
  match fields.find? (fun p => p.1 == k) with
  | some p => some p.2
  | none => none

/-- Python `d[k]`: `none` models the `KeyError`/`TypeError` the source
raises when `k` is missing or `v` is not a dict. -/
def jIndex (v : JVal) (k : String) : Option JVal :=
  match v with
  | .obj fields => jFind fields k
  | _ => none

/-- Python `d.get(k, default)`: `none` models the `AttributeError` raised
when `v` is not a dict. -/
def jGetD (v : JVal) (k : String) (dflt : JVal) : Option JVal :=
  match v with
  | .obj fields =>
    match jFind fields k with
    | some x => some x
    | none => some dflt
  | _ => none

/-- Python `k in d` (only called on dict values in the source). -/
def jHasKey (v : JVal) (k : String) : Bool :=
  match v with
  | .obj fields => (jFind fields k).isSome
  | _ => false

/-- Python truthiness of the values `_extract_structured_data` tests. -/
def jTruthy : JVal → Bool
  | .null => false
  | .bool b => b
  | .num q => !(q == 0)
  | .str s => !s.isEmpty
  | .arr l => !l.isEmpty
  | .obj fields => !fields.isEmpty

/-- Python `for x in v`: lists yield elements, strings their characters,
dicts their keys; other values raise `TypeError` (modelled as `none`). -/
def pyIter : JVal → Option (List JVal)
  | .arr l => some l
  | .str s => some (s.data.map (fun c => JVal.str (String.mk [c])))
  | .obj fields => some (fields.map (fun p => JVal.str p.1))
  | _ => none

/-- Python slicing `v[:n]` as used by the node builders: works on strings
and lists, raises `TypeError` otherwise (modelled as `none`). -/
def jSlice (v : JVal) (n : ℕ) : Option JVal :=
  match v with
  | .str s => some (.str (String.mk (s.data.take n)))
  | .arr l => some (.arr (l.take n))
  | _ => none

/-- Length of a sliceable JSON value (0 for the others). -/
def jLen : JVal → ℕ
  | .str s => s.data.length
  | .arr l => l.length
  | _ => 0

/-- Dict insertion with Python semantics: an existing key keeps its
position and gets the new value, a new key is appended. -/
def jObjInsert (fields : List (String × JVal)) (k : String) (v : JVal) :
    List (String × JVal) :=
  if fields.any (fun p => p.1 == k) then
    fields.map (fun p => if p.1 == k then (k, v) else p)
  else fields ++ [(k, v)]

/-! ## A model of `json.loads`

Recursive-descent parser over a fuel bound; supports the JSON fragment the
pipeline and the claims exercise (null/true/false, integers and decimal
fractions, strings with the single-character escapes, arrays, objects with
last-duplicate-wins keys).  `\uXXXX` escapes and exponents are not
modelled; none of the concrete inputs below use them. -/

def jsonWs (c : Char) : Bool :=
  [' ', '\t', '\n', '\r'].contains c

def skipWs (l : List Char) : List Char :=
  l.dropWhile jsonWs

/-- The single-character escapes of a JSON string, as source/decoded pairs. -/
def jsonEscapePairs : List (Char × Char) :=
  [('"', '"'), ('\\', '\\'), ('/', '/'), ('n', '\n'), ('t', '\t'),
    ('r', '\r'), ('b', '\x08'), ('f', '\x0c')]

def jsonEscape (c : Char) : Option Char :=
  (jsonEscapePairs.find? (fun p => p.1 == c)).map (fun p => p.2)

/-- Body of a JSON string after the opening quote: returns the decoded
characters and the input after the closing quote. -/
def parseStrBody : List Char → Option (List Char × List Char)
  | [] => none
  | c :: rest =>
    if c == '"' then some ([], rest)
    else if c == '\\' then
      match rest with
      | [] => none
      | e :: r2 =>
        match jsonEscape e with
        | some ec =>
          match parseStrBody r2 with
          | some (s, r3) => some (ec :: s, r3)
          | none => none
        | none => none
    else
      match parseStrBody rest with
      | some (s, r2) => some (c :: s, r2)
      | none => none

def digitsToNat (l : List Char) : ℕ :=
  l.foldl (fun n c => n * 10 + (c.toNat - 48)) 0

/-- JSON number (integer part plus optional decimal fraction). -/
def parseNum (l : List Char) : Option (ℚ × List Char) :=
  let (neg, l1) :=
    match l with
    | '-' :: r => (true, r)
    | _ => (false, l)
  let ds := l1.takeWhile Char.isDigit
  let r2 := l1.dropWhile Char.isDigit
  if ds.isEmpty then none
  else
    let ip : ℚ := (digitsToNat ds : ℚ)
    let (v, r4) : ℚ × List Char :=
      match r2 with
      | '.' :: r3 =>
        let fs := r3.takeWhile Char.isDigit
        let r4 := r3.dropWhile Char.isDigit
        (ip + (digitsToNat fs : ℚ) / ((10 : ℚ) ^ fs.length), r4)
      | _ => (ip, r2)
    match r4 with
    | '.' :: _ => none
    | _ => some (if neg then -v else v, r4)

mutual

def parseVal : ℕ → List Char → Option (JVal × List Char)
  | 0, _ => none
  | fuel + 1, l =>
    match skipWs l with
    | [] => none
    | c :: rest =>
      if c == '\x7b' then parseObjFields fuel rest
      else if c == '[' then parseArrItems fuel rest
      else if c == '"' then
        match parseStrBody rest with
        | some (s, r2) => some (.str (String.mk s), r2)
        | none => none
      else if c == 'n' then
        match rest with
        | 'u' :: 'l' :: 'l' :: r2 => some (.null, r2)
        | _ => none
      else if c == 't' then
        match rest with
        | 'r' :: 'u' :: 'e' :: r2 => some (.bool true, r2)
        | _ => none
      else if c == 'f' then
        match rest with
        | 'a' :: 'l' :: 's' :: 'e' :: r2 => some (.bool false, r2)
        | _ => none
      else
        match parseNum (c :: rest) with
        | some (q, r2) => some (.num q, r2)
        | none => none

def parseArrItems : ℕ → List Char → Option (JVal × List Char)
  | 0, _ => none
  | fuel + 1, l =>
    match skipWs l with
    | ']' :: r => some (.arr [], r)
    | l2 =>
      match parseVal fuel l2 with
      | none => none
      | some (v, r2) => parseArrRest fuel r2 [v]

def parseArrRest : ℕ → List Char → List JVal → Option (JVal × List Char)
  | 0, _, _ => none
  | fuel + 1, l, acc =>
    match skipWs l with
    | ']' :: r => some (.arr acc, r)
    | ',' :: r =>
      match parseVal fuel r with
      | none => none
      | some (v, r2) => parseArrRest fuel r2 (acc ++ [v])
    | _ => none

def parseObjFields : ℕ → List Char → Option (JVal × List Char)
  | 0, _ => none
  | fuel + 1, l =>
    match skipWs l with
    | '\x7d' :: r => some (.obj [], r)
    | '"' :: r =>
      match parseStrBody r with
      | none => none
      | some (k, r2) =>
        match skipWs r2 with
        | ':' :: r3 =>
          match parseVal fuel r3 with
          | none => none
          | some (v, r4) => parseObjRest fuel r4 (jObjInsert [] (String.mk k) v)
        | _ => none
    | _ => none

def parseObjRest : ℕ → List Char → List (String × JVal) →
    Option (JVal × List Char)
  | 0, _, _ => none
  | fuel + 1, l, acc =>
    match skipWs l with
    | '\x7d' :: r => some (.obj acc, r)
    | ',' :: r =>
      match skipWs r with
      | '"' :: r2 =>
        match parseStrBody r2 with
        | none => none
        | some (k, r3) =>
          match skipWs r3 with
          | ':' :: r4 =>
            match parseVal fuel r4 with
            | none => none
            | some (v, r5) => parseObjRest fuel r5 (jObjInsert acc (String.mk k) v)
          | _ => none
      | _ => none
    | _ => none

end

/-- Model of `json.loads`: the whole input must be consumed (modulo
trailing whitespace). -/
def parseJson (s : String) : Option JVal :=
  match parseVal (2 * s.length + 2) s.data with
  | some (v, rest) => if (skipWs rest).isEmpty then some v else none
  | none => none

/-! ## `_repair_json_content` (mindmap_generator.py lines 293-307)

Each regex substitution is a deterministic left-to-right maximal-munch
scan (none of the three patterns needs backtracking); on a failed match
the scan advances one character, on a successful one it resumes after the
matched span, exactly as `re.sub` does. -/

theorem length_dropWhile_le (p : Char → Bool) (l : List Char) :
    (l.dropWhile p).length ≤ l.length :=
  (List.dropWhile_sublist _).length_le

theorem dropWhile_cons_length {p : Char → Bool} {l r : List Char} {b : Char}
    (h : l.dropWhile p = b :: r) : r.length < l.length := by
  have h1 := length_dropWhile_le p l
  rw [h] at h1
  simp only [List.length_cons] at h1
  omega

theorem dropWhile3_cons_length {p q r : Char → Bool} {l t : List Char} {b : Char}
    (h : ((l.dropWhile p).dropWhile q).dropWhile r = b :: t) : t.length < l.length := by
  have h1 := dropWhile_cons_length h
  have h2 := length_dropWhile_le q (l.dropWhile p)
  have h3 := length_dropWhile_le p l
  omega

/-- Substitution `re.sub(r',\s*([}\])', r'\1', content)`: drop a comma
(and the whitespace) directly before a closing brace/bracket.  Each step
consumes at least one input character, so `l.length` fuel always finishes
the scan; the fuel-exhausted row is unreachable from the wrapper. -/
def repairSub1Go : ℕ → List Char → List Char
  | 0, l => l
  | _ + 1, [] => []
  | fuel + 1, c :: rest =>
    if c = ',' then
      match rest.dropWhile pyIsSpace with
      | b :: r2 =>
        if b = '\x7d' ∨ b = ']' then b :: repairSub1Go fuel r2
        else c :: repairSub1Go fuel rest
      | [] => c :: repairSub1Go fuel rest
    else c :: repairSub1Go fuel rest

def repairSub1 (l : List Char) : List Char := repairSub1Go l.length l

def isIdentStart (c : Char) : Bool :=
  c.isAlpha || c == '_'

def isIdentChar (c : Char) : Bool :=
  isIdentStart c || c.isDigit

/-- Substitution
`re.sub(r'([{,]\s*)([a-zA-Z_][a-zA-Z0-9_]*)\s*:', r'\1"\2":', content)`:
quote an unquoted object key. -/
def repairSub2Go : ℕ → List Char → List Char
  | 0, l => l
  | _ + 1, [] => []
  | fuel + 1, c :: rest =>
    if c = '\x7b' ∨ c = ',' then
      match ((rest.dropWhile pyIsSpace).dropWhile isIdentChar).dropWhile pyIsSpace with
      | ':' :: r4 =>
        if !((rest.dropWhile pyIsSpace).takeWhile isIdentChar).isEmpty &&
            isIdentStart (((rest.dropWhile pyIsSpace).takeWhile isIdentChar).headD 'x') then
          c :: (rest.takeWhile pyIsSpace ++
            ('"' :: ((rest.dropWhile pyIsSpace).takeWhile isIdentChar ++
              ('"' :: ':' :: repairSub2Go fuel r4))))
        else c :: repairSub2Go fuel rest
      | _ => c :: repairSub2Go fuel rest
    else c :: repairSub2Go fuel rest

def repairSub2 (l : List Char) : List Char := repairSub2Go l.length l

def notSub3Delim (c : Char) : Bool :=
  !(c == '"' || c == ',' || c == '\x7d' || c == ']')

/-- Substitution `re.sub(r':\s*"([^"]*)"([^",}\]]*)"', r': "\1\2"', content)`:
merge a string value interrupted by a stray quote. -/
def repairSub3Go : ℕ → List Char → List Char
  | 0, l => l
  | _ + 1, [] => []
  | fuel + 1, c :: rest =>
    if c = ':' then
      match rest.dropWhile pyIsSpace with
      | q1 :: r2 =>
        if q1 = '"' then
          match r2.dropWhile (fun d => !(d == '"')) with
          | _ :: r4 =>
            match r4.dropWhile notSub3Delim with
            | q3 :: r6 =>
              if q3 = '"' then
                ':' :: ' ' :: '"' :: (r2.takeWhile (fun d => !(d == '"')) ++
                  (r4.takeWhile notSub3Delim ++ ('"' :: repairSub3Go fuel r6)))
              else ':' :: repairSub3Go fuel rest
            | [] => ':' :: repairSub3Go fuel rest
          | [] => ':' :: repairSub3Go fuel rest
        else ':' :: repairSub3Go fuel rest
      | [] => ':' :: repairSub3Go fuel rest
    else c :: repairSub3Go fuel rest

def repairSub3 (l : List Char) : List Char := repairSub3Go l.length l

/-- `_repair_json_content`: the three substitutions in source order.  The
surrounding `try/except` can never fire (the substitutions are total), so
the function always returns a string. -/
def repair_json_content (s : String) : String :=
  String.mk (repairSub3 (repairSub2 (repairSub1 s.data)))

/-! ### Occurrence predicates for the three repair patterns

`patNMatch c rest` holds exactly when the corresponding regex matches at
the position where `c` is the current character; `patNFree` says the
pattern occurs nowhere in the text. -/

def pat1Match (c : Char) (rest : List Char) : Bool :=
  c == ',' &&
    (match rest.dropWhile pyIsSpace with
     | b :: _ => b == '\x7d' || b == ']'
     | [] => false)

def pat1Free : List Char → Bool
  | [] => true
  | c :: rest => !pat1Match c rest && pat1Free rest

def pat2Match (c : Char) (rest : List Char) : Bool :=
  (c == '\x7b' || c == ',') &&
    (match ((rest.dropWhile pyIsSpace).dropWhile isIdentChar).dropWhile pyIsSpace with
     | ':' :: _ =>
       !((rest.dropWhile pyIsSpace).takeWhile isIdentChar).isEmpty &&
         isIdentStart (((rest.dropWhile pyIsSpace).takeWhile isIdentChar).headD 'x')
     | _ => false)

def pat2Free : List Char → Bool
  | [] => true
  | c :: rest => !pat2Match c rest && pat2Free rest

def pat3Match (c : Char) (rest : List Char) : Bool :=
  c == ':' &&
    (match rest.dropWhile pyIsSpace with
     | q1 :: r2 =>
       q1 == '"' &&
         (match r2.dropWhile (fun d => !(d == '"')) with
          | _ :: r4 =>
            (match r4.dropWhile notSub3Delim with
             | q3 :: _ => q3 == '"'
             | [] => false)
          | [] => false)
     | [] => false)

def pat3Free : List Char → Bool
  | [] => true
  | c :: rest => !pat3Match c rest && pat3Free rest

theorem repairSub1Go_id : ∀ (fuel : ℕ) (l : List Char), l.length ≤ fuel →
    pat1Free l = true → repairSub1Go fuel l = l := by
  intro fuel
  induction fuel with
  | zero => intro l _ _; rfl
  | succ f ih =>
    intro l hlen hf
    cases l with
    | nil => rfl
    | cons c rest =>
      simp only [pat1Free, Bool.and_eq_true, Bool.not_eq_true'] at hf
      obtain ⟨hm, hrest⟩ := hf
      have hr : rest.length ≤ f := by
        simp only [List.length_cons] at hlen
        omega
      by_cases hc : c = ','
      · subst hc
        rw [repairSub1Go, if_pos rfl]
        split
        · rename_i b r2 heq
          split
          · rename_i hb
            exfalso
            simp only [pat1Match, heq] at hm
            rcases hb with h | h <;> subst h <;> simp at hm
          · rw [ih rest hr hrest]
        · rw [ih rest hr hrest]
      · rw [repairSub1Go, if_neg hc, ih rest hr hrest]

theorem repairSub1_id (l : List Char) (hf : pat1Free l = true) :
    repairSub1 l = l :=
  repairSub1Go_id l.length l (Nat.le_refl _) hf

theorem repairSub2Go_id : ∀ (fuel : ℕ) (l : List Char), l.length ≤ fuel →
    pat2Free l = true → repairSub2Go fuel l = l := by
  intro fuel
  induction fuel with
  | zero => intro l _ _; rfl
  | succ f ih =>
    intro l hlen hf
    cases l with
    | nil => rfl
    | cons c rest =>
      simp only [pat2Free, Bool.and_eq_true, Bool.not_eq_true'] at hf
      obtain ⟨hm, hrest⟩ := hf
      have hr : rest.length ≤ f := by
        simp only [List.length_cons] at hlen
        omega
      by_cases hc : c = '\x7b' ∨ c = ','
      · rw [repairSub2Go, if_pos hc]
        split
        · rename_i r4 heq
          split
          · rename_i hid
            exfalso
            have hcb : (c == '\x7b' || c == ',') = true := by
              rcases hc with h | h <;> simp [h]
            simp only [pat2Match, hcb, Bool.true_and, heq] at hm
            rw [hm] at hid
            cases hid
          · rw [ih rest hr hrest]
        · rw [ih rest hr hrest]
      · rw [repairSub2Go, if_neg hc, ih rest hr hrest]

theorem repairSub2_id (l : List Char) (hf : pat2Free l = true) :
    repairSub2 l = l :=
  repairSub2Go_id l.length l (Nat.le_refl _) hf

theorem repairSub3Go_id : ∀ (fuel : ℕ) (l : List Char), l.length ≤ fuel →
    pat3Free l = true → repairSub3Go fuel l = l := by
  intro fuel
  induction fuel with
  | zero => intro l _ _; rfl
  | succ f ih =>
    intro l hlen hf
    cases l with
    | nil => rfl
    | cons c rest =>
      simp only [pat3Free, Bool.and_eq_true, Bool.not_eq_true'] at hf
      obtain ⟨hm, hrest⟩ := hf
      have hr : rest.length ≤ f := by
        simp only [List.length_cons] at hlen
        omega
      by_cases hc : c = ':'
      · subst hc
        rw [repairSub3Go, if_pos rfl]
        split
        · rename_i q1 r2 heq1
          by_cases hq1 : q1 = '"'
          · subst hq1
            rw [if_pos rfl]
            split
            · rename_i q2 r4 heq2
              split
              · rename_i q3 r6 heq3
                by_cases hq3 : q3 = '"'
                · exfalso
                  simp only [pat3Match, heq1, heq2, heq3] at hm
                  simp [hq3] at hm
                · rw [if_neg hq3, ih rest hr hrest]
              · rw [ih rest hr hrest]
            · rw [ih rest hr hrest]
          · rw [if_neg hq1, ih rest hr hrest]
        · rw [ih rest hr hrest]
      · rw [repairSub3Go, if_neg hc, ih rest hr hrest]

theorem repairSub3_id (l : List Char) (hf : pat3Free l = true) :
    repairSub3 l = l :=
  repairSub3Go_id l.length l (Nat.le_refl _) hf

/-! ## `_clean_json_response` (mindmap_generator.py lines 264-291) -/

def lowEq (c target : Char) : Bool :=
  c.toLower == target

/-- Substitution `re.sub(r'```json\s*', '', content, flags=re.IGNORECASE)`. -/
def fenceSubJsonGo : ℕ → List Char → List Char
  | 0, l => l
  | _ + 1, [] => []
  | fuel + 1, c :: rest =>
    if c = '\x60' then
      match rest with
      | t2 :: t3 :: cj :: cs :: co :: cn :: r =>
        if t2 == '\x60' && t3 == '\x60' && lowEq cj 'j' && lowEq cs 's' &&
            lowEq co 'o' && lowEq cn 'n' then
          fenceSubJsonGo fuel (r.dropWhile pyIsSpace)
        else c :: fenceSubJsonGo fuel rest
      | _ => c :: fenceSubJsonGo fuel rest
    else c :: fenceSubJsonGo fuel rest

def fenceSubJson (l : List Char) : List Char := fenceSubJsonGo l.length l

/-- Substitution `re.sub(r'```\s*', '', content)`. -/
def fenceSubPlainGo : ℕ → List Char → List Char
  | 0, l => l
  | _ + 1, [] => []
  | fuel + 1, c :: rest =>
    if c = '\x60' then
      match rest with
      | t2 :: t3 :: r =>
        if t2 == '\x60' && t3 == '\x60' then
          fenceSubPlainGo fuel (r.dropWhile pyIsSpace)
        else c :: fenceSubPlainGo fuel rest
      | _ => c :: fenceSubPlainGo fuel rest
    else c :: fenceSubPlainGo fuel rest

def fenceSubPlain (l : List Char) : List Char := fenceSubPlainGo l.length l

/-- Brace-depth scan: starting at the first `{`, return the span up to the
matching `}` (the source counts braces without regard to strings). -/
def braceTake : List Char → Int → List Char → Option (List Char)
  | [], _, _ => none
  | c :: cs, depth, acc =>
    if c = '\x7b' then braceTake cs (depth + 1) (c :: acc)
    else if c = '\x7d' then
      if depth = 1 then some (c :: acc).reverse
      else braceTake cs (depth - 1) (c :: acc)
    else braceTake cs depth (c :: acc)

/-- `_clean_json_response`: strip code fences, locate the first `{` and the
brace-balanced closing `}`.  `none` models the `ValueError` raised when no
JSON object or no matching brace is found. -/
def clean_json_response (content : String) : Option String :=
  let l := fenceSubPlain (fenceSubJson content.data)
  let rest := l.dropWhile (fun c => !(c == '\x7b'))
  match rest with
  | [] => none
  | _ :: _ =>
    match braceTake rest 0 [] with
    | some span => some (String.mk span)
    | none => none

/-! ## `_validate_structured_data` (mindmap_generator.py lines 309-343) -/

def hasRequiredFields (v : JVal) : Bool :=
  jHasKey v "id" && jHasKey v "name" && jHasKey v "summary"

def validateSubtopic (s : JVal) : Bool :=
  match s with
  | .obj _ => hasRequiredFields s
  | _ => false

def validateTheme (t : JVal) : Bool :=
  match t with
  | .obj _ =>
    hasRequiredFields t &&
      (match jIndex t "subtopics" with
       | none => true
       | some sv =>
         match pyIter sv with
         | none => false
         | some subs => subs.all validateSubtopic)
  | _ => false

/-- `_validate_structured_data`: requires a dict with a `main_themes`
list whose themes (and their subtopics, when present) each carry
`id`/`name`/`summary` keys; the presence of the keys is all that is
checked.  `false` also covers the `TypeError` branches absorbed by the
surrounding `except`. -/
def validate_structured_data (data : JVal) : Bool :=
  match data with
  | .obj _ =>
    match jIndex data "main_themes" with
    | some (.arr themes) => themes.all validateTheme
    | _ => false
  | _ => false

/-! ## `_process_structured_response` (mindmap_generator.py lines 232-262)

The source returns either validated data or a dict holding an `"error"`
key; all returns are non-empty dicts and hence truthy in Python. -/

def errObj (msg : String) : JVal :=
  JVal.obj [("error", JVal.str msg)]

def process_structured_response (content : String) : JVal :=
  match clean_json_response content with
  | none =>
    -- `_clean_json_response` raised ValueError: caught by `except Exception`
    errObj "Structure processing error"
  | some cleaned =>
    match parseJson cleaned with
    | some data =>
      if validate_structured_data data then data
      else errObj "Failed to validate structured data"
    | none =>
      -- json.JSONDecodeError: repair the ORIGINAL content and retry
      match repair_json_content content with
      | "" => errObj "JSON processing failed"
      | repaired =>
        match parseJson repaired with
        | some data2 =>
          if validate_structured_data data2 then data2
          else errObj "JSON processing failed"
        | none => errObj "JSON processing failed"

/-! ## `_build_node_graph` and the node constructors
(mindmap_generator.py lines 345-442) -/

structure MindMapNode where
  id : JVal
  name : JVal
  summary : JVal
  level : ℕ
  parent_id : Option JVal
  node_type : String
  importance : JVal
  keywords : JVal
  children : List JVal := []

structure MEdge where
  src : JVal
  dst : JVal
  relationship : JVal
  strength : JVal

abbrev NodeMap := List (JVal × MindMapNode)

/-- Python `self.nodes[key] = node`: overwrite keeps the key's position,
a fresh key is appended. -/
def nodeInsert (m : NodeMap) (k : JVal) (v : MindMapNode) : NodeMap :=
  if m.any (fun p => jPrimEq p.1 k) then
    m.map (fun p => if jPrimEq p.1 k then (k, v) else p)
  else m ++ [(k, v)]

def nodeHasKey (m : NodeMap) (k : JVal) : Bool :=
  m.any (fun p => jPrimEq p.1 k)

def create_theme_node (theme_data : JVal) (parent : JVal) :
    Option MindMapNode := do
  let idv ← jIndex theme_data "id"
  let namev ← jIndex theme_data "name"
  let name40 ← jSlice namev 40
  let sumv ← jIndex theme_data "summary"
  let imp ← jGetD theme_data "importance" (JVal.num ((8 : ℚ)/10))
  let kws ← jGetD theme_data "keywords" (JVal.arr [])
  some ⟨idv, name40, sumv, 1, some parent, "theme", imp, kws, []⟩

def create_subtopic_node (subtopic_data : JVal) (parent : JVal) :
    Option MindMapNode := do
  let idv ← jIndex subtopic_data "id"
  let namev ← jIndex subtopic_data "name"
  let name30 ← jSlice namev 30
  let sumv ← jIndex subtopic_data "summary"
  let imp ← jGetD subtopic_data "importance" (JVal.num ((6 : ℚ)/10))
  let kws ← jGetD subtopic_data "keywords" (JVal.arr [])
  some ⟨idv, name30, sumv, 2, some parent, "subtopic", imp, kws, []⟩

def create_detail_node (detail_data : JVal) (parent : JVal) :
    Option MindMapNode := do
  let idv ← jIndex detail_data "id"
  let namev ← jIndex detail_data "name"
  let name25 ← jSlice namev 25
  let sumv ← jIndex detail_data "summary"
  let imp ← jGetD detail_data "importance" (JVal.num ((4 : ℚ)/10))
  some ⟨idv, name25, sumv, 3, some parent, "detail", imp, JVal.arr [], []⟩

def rootNodeOf (title : JVal) : MindMapNode :=
  ⟨JVal.str "root", title, JVal.str "Root node of the knowledge map",
    0, none, "root", JVal.num 1, JVal.arr [], []⟩

def addDetailBranch (parent : JVal) (acc : NodeMap × List MEdge)
    (detail_data : JVal) : Option (NodeMap × List MEdge) := do
  let dn ← create_detail_node detail_data parent
  if jHashable dn.id then
    some (nodeInsert acc.1 dn.id dn,
      acc.2 ++ [⟨parent, dn.id, JVal.str "contains", JVal.num ((6 : ℚ)/10)⟩])
  else none

def addSubtopicBranch (parent : JVal) (acc : NodeMap × List MEdge)
    (subtopic_data : JVal) : Option (NodeMap × List MEdge) := do
  let sn ← create_subtopic_node subtopic_data parent
  if jHashable sn.id then
    let acc1 := (nodeInsert acc.1 sn.id sn,
      acc.2 ++ [⟨parent, sn.id, JVal.str "contains", JVal.num ((8 : ℚ)/10)⟩])
    let detsv ← jGetD subtopic_data "details" (JVal.arr [])
    let dets ← pyIter detsv
    dets.foldlM (addDetailBranch sn.id) acc1
  else none

def addThemeBranch (acc : NodeMap × List MEdge) (theme_data : JVal) :
    Option (NodeMap × List MEdge) := do
  let tn ← create_theme_node theme_data (JVal.str "root")
  if jHashable tn.id then
    let acc1 := (nodeInsert acc.1 tn.id tn,
      acc.2 ++ [⟨JVal.str "root", tn.id, JVal.str "contains", JVal.num 1⟩])
    let subsv ← jGetD theme_data "subtopics" (JVal.arr [])
    let subs ← pyIter subsv
    subs.foldlM (addSubtopicBranch tn.id) acc1
  else none

def addConnection (ns : NodeMap) (es : List MEdge) (conn : JVal) :
    Option (List MEdge) := do
  let f ← jIndex conn "from"
  if jHashable f then
    if nodeHasKey ns f then do
      let t ← jIndex conn "to"
      if jHashable t then
        if nodeHasKey ns t then do
          let rel ← jGetD conn "relationship" (JVal.str "relates_to")
          let st ← jGetD conn "strength" (JVal.num ((5 : ℚ)/10))
          some (es ++ [⟨f, t, rel, st⟩])
        else some es
      else none
    else some es
  else none

/-- `_build_node_graph`: root node plus one node per theme, subtopic and
detail, `contains` edges along the hierarchy, then the cross connections.
`none` models the `KeyError`/`TypeError` exceptions that the caller's
broad `except` turns into an error return. -/
def build_node_graph (structured_data : JVal) :
    Option (NodeMap × List MEdge) := do
  let title ← jGetD structured_data "title" (JVal.str "Document Mind Map")
  let ns0 : NodeMap := nodeInsert [] (JVal.str "root") (rootNodeOf title)
  let themesv ← jGetD structured_data "main_themes" (JVal.arr [])
  let themes ← pyIter themesv
  let built ← themes.foldlM addThemeBranch (ns0, ([] : List MEdge))
  let connsv ← jGetD structured_data "connections" (JVal.arr [])
  let conns ← pyIter connsv
  let es ← conns.foldlM (addConnection built.1) built.2
  some (built.1, es)

/-! ## `_fallback_structure_extraction` (mindmap_generator.py lines 762-812) -/

structure FSub where
  id : String
  name : String
  summary : String

structure FTheme where
  id : String
  name : String
  summary : String
  subtopics : List FSub

def newFallbackTheme (themeCount : ℕ) (line : String) : FTheme :=
  ⟨"theme_" ++ toString (themeCount + 1),
    String.mk ((pyStrip line).data.take 40),
    "Analysis of " ++ String.mk ((pyStrip line).data.take 30), []⟩

def newFallbackSub (themeCount subCount : ℕ) (line : String) : FSub :=
  ⟨"theme_" ++ toString themeCount ++ "_sub_" ++ toString (subCount + 1),
    String.mk ((pyStrip line).data.take 30),
    "Details about " ++ String.mk ((pyStrip line).data.take 20)⟩

/-- Replace the last element of a list (the `current_theme` alias). -/
def updateLast (ts : List FTheme) (t : FTheme) : List FTheme :=
  ts.dropLast ++ [t]

def fallbackStep (ts : List FTheme) (line : String) : List FTheme :=
  if 10 < line.length ∧ line.length < 100 then
    match ts.getLast? with
    | none => ts ++ [newFallbackTheme ts.length line]
    | some ct =>
      if 3 ≤ ct.subtopics.length then ts ++ [newFallbackTheme ts.length line]
      else updateLast ts
        { ct with subtopics :=
            ct.subtopics ++ [newFallbackSub ts.length ct.subtopics.length line] }
  else ts

/-- The scan over the first 100 lines, with the `len(themes) >= 5` break
checked after each line. -/
def fallbackLoop : List String → List FTheme → List FTheme
  | [], ts => ts
  | l :: ls, ts =>
    let ts2 := fallbackStep ts l
    if 5 ≤ ts2.length then ts2 else fallbackLoop ls ts2

def fsubToJVal (themeCount : ℕ) (s : FSub) : JVal :=
  JVal.obj [("id", JVal.str s.id), ("name", JVal.str s.name),
    ("summary", JVal.str s.summary), ("importance", JVal.num ((5 : ℚ)/10)),
    ("keywords", JVal.arr []), ("details", JVal.arr [])]

def fthemeToJVal (t : FTheme) : JVal :=
  JVal.obj [("id", JVal.str t.id), ("name", JVal.str t.name),
    ("summary", JVal.str t.summary), ("importance", JVal.num ((7 : ℚ)/10)),
    ("keywords", JVal.arr []),
    ("subtopics", JVal.arr (t.subtopics.map (fsubToJVal 0)))]

def defaultFallbackTheme : FTheme :=
  ⟨"theme_1", "Document Analysis",
    "General analysis of the document content", []⟩

/-- The scan of the document's first 100 lines. -/
def fallbackThemesRaw (document_text : String) : List FTheme :=
  fallbackLoop ((document_text.splitOn "\n").take 100) []

/-- `_fallback_structure_extraction`: heuristic line-based theme
extraction over the document text, guaranteeing at least one theme. -/
def fallback_structure_extraction (document_text : String)
    (document_titles : List String) : JVal :=
  JVal.obj [("title", JVal.str (document_titles.headD "Document Mind Map")),
    ("main_themes", JVal.arr
      ((if (fallbackThemesRaw document_text).isEmpty then [defaultFallbackTheme]
        else fallbackThemesRaw document_text).map fthemeToJVal)),
    ("connections", JVal.arr [])]

/-! ## `_extract_structured_data` and `generate_mind_map`
(mindmap_generator.py lines 70-208)

The completion gateway is an untrusted external collaborator; it is
modelled as a function from the attempt number to a response.  The prompt
text (and the intelligent-sampling preprocessing that only feeds it) does
not influence anything the claims observe and is not tracked. -/

structure GwResp where
  success : Bool
  content : String

/-- One iteration of the attempt loop: on a successful response the
processed data is returned whenever it is truthy, otherwise the loop
continues with `k`. -/
def attemptOr (gw : ℕ → GwResp) (i : ℕ) (k : JVal) : JVal :=
  if (gw i).success then
    let sd := process_structured_response (gw i).content
    if jTruthy sd then sd else k
  else k

/-- `_extract_structured_data`: three gateway attempts, then the heuristic
fallback. -/
def extract_structured_data (gw : ℕ → GwResp) (document_text : String)
    (document_titles : List String) : JVal :=
  attemptOr gw 0 (attemptOr gw 1 (attemptOr gw 2
    (fallback_structure_extraction document_text document_titles)))

structure MindMapData where
  title : JVal
  nodes : NodeMap
  edges : List MEdge

inductive GenResult where
  | error : String → GenResult
  | ok : MindMapData → GenResult

/-- `generate_mind_map`: the public entry point.  The final `except`
handler converts any exception raised while building the graph into an
error dict; streamlit progress output and the visualisation/statistics
payloads (pure render data) are not modelled. -/
def generate_mind_map (gw : ℕ → GwResp) (document_text : String)
    (document_titles : List String) : GenResult :=
  if (pyStrip document_text).isEmpty then
    GenResult.error "No document content provided"
  else
    let sd := extract_structured_data gw document_text document_titles
    if !(jTruthy sd) || jHasKey sd "error" then
      GenResult.error "Failed to extract structured data from document"
    else
      match build_node_graph sd with
      | none => GenResult.error "exception while building the node graph"
      | some (ns, es) =>
        match jGetD sd "title" (JVal.str "Document Mind Map") with
        | none => GenResult.error "exception while building the node graph"
        | some title => GenResult.ok ⟨title, ns, es⟩

/-- Node list of a generation result (empty on error). -/
def resultNodes : GenResult → NodeMap
  | .error _ => []
  | .ok d => d.nodes

/-! ## `VectorStore` (vector_store.py)

The sklearn `TfidfVectorizer` and `cosine_similarity` are numeric black
boxes: `fitV` models the vocabulary produced by `fit_transform`, `fitT`
the fitted row matrix, `trans` the transform-only rows, and `sim` the
cosine similarity of the query against one row.  Nothing about them is
assumed.  `V` is the type of one matrix row. -/

/-- The keys of an incoming chunk dict that `add_document` reads
(other keys are copied along unchanged and are not tracked). -/
structure CIn where
  text : Option String
deriving DecidableEq

/-- The keys of a `DocumentProcessor` result that `add_document` reads;
`none` marks a missing key. -/
structure DocInfo where
  success : Option Bool
  chunks : Option (List CIn)
  filename : Option String
  file_type : Option String
deriving DecidableEq

/-- An enhanced chunk as stored in `self.chunks`. -/
structure EChunk where
  text : String
  document_name : String
  file_type : String
  global_index : ℕ
deriving DecidableEq

structure VStore (V : Type) where
  chunks : List EChunk
  document_vectors : Option (List V)
  is_fitted : Bool
  vocab : List String
deriving DecidableEq

/-- A freshly constructed (or `clear()`ed) store. -/
def VStore.empty (V : Type) : VStore V := ⟨[], none, false, []⟩

/-- `clear()`: drop all state and reset the vectorizer (fresh vocabulary). -/
def VStore.clear (_st : VStore V) : VStore V := ⟨[], none, false, []⟩

/-- The comprehension `[chunk["text"] for chunk in doc_info["chunks"]]`:
`none` models the `KeyError` when some chunk lacks the key. -/
def textsOf : List CIn → Option (List String)
  | [] => some []
  | c :: cs =>
    match c.text with
    | none => none
    | some t =>
      match textsOf cs with
      | none => none
      | some ts => some (t :: ts)

/-- `add_document`: reject on missing/false `success` or missing/empty
`chunks`; any `KeyError` while reading chunk texts or the document
metadata is caught by the broad `except` and returns `False` (all those
reads happen before any field of `self` is assigned).  The first
successful add fits the vectorizer, later ones transform against the
existing vocabulary and append. -/
def add_document (fitV : List String → List String)
    (fitT : List String → List V) (trans : List String → List V)
    (st : VStore V) (doc : DocInfo) : Bool × VStore V :=
  if !(doc.success.getD false) then (false, st)
  else
    match doc.chunks with
    | none => (false, st)
    | some [] => (false, st)
    | some cs =>
      match textsOf cs with
      | none => (false, st)
      | some texts =>
        match doc.filename, doc.file_type with
        | some fn, some ft =>
          let enhanced := texts.enum.map
            (fun p => EChunk.mk p.2 fn ft (st.chunks.length + p.1))
          if !st.is_fitted then
            (true, ⟨enhanced, some (fitT texts), true, fitV texts⟩)
          else
            let dv :=
              match st.document_vectors with
              | some old => some (old ++ trans texts)
              | none => some (trans texts)
            (true, ⟨st.chunks ++ enhanced, dv, st.is_fitted, st.vocab⟩)
        | _, _ => (false, st)

structure SRes where
  idx : ℕ
  score : ℚ
  chunk : EChunk
  rank : ℕ
deriving DecidableEq

/-- The enumeration loop of `search`: keep every row whose similarity is
at least `min_score`, remembering the original chunk index. -/
def buildResults (chunks : List EChunk) (min_score : ℚ) :
    ℕ → List ℚ → List SRes
  | _, [] => []
  | i, s :: ss =>
    if min_score ≤ s then
      match chunks.get? i with
      | some c => ⟨i, s, c, 0⟩ :: buildResults chunks min_score (i + 1) ss
      | none => buildResults chunks min_score (i + 1) ss
    else buildResults chunks min_score (i + 1) ss

/-- Stable insertion for a descending sort by score: a new element goes
after every existing element of greater-or-equal score. -/
def insertScoreDesc (x : SRes) : List SRes → List SRes
  | [] => [x]
  | y :: ys => if x.score ≤ y.score then y :: insertScoreDesc x ys
               else x :: y :: ys

/-- `results.sort(key=..., reverse=True)`: Python's sort is stable, so
equal scores keep their original (chunk) order.  Any stable descending
sort computes the same list; this one processes the input left to right
and inserts each element after its greater-or-equal predecessors. -/
def pySortDesc (l : List SRes) : List SRes :=
  l.foldl (fun acc x => insertScoreDesc x acc) []

/-- Ranks 1,2,... assigned to the returned prefix. -/
def addRanks : ℕ → List SRes → List SRes
  | _, [] => []
  | i, r :: rs => { r with rank := i + 1 } :: addRanks (i + 1) rs

/-- `search`: empty on an unfitted store or a whitespace-only query;
otherwise filter by `min_score`, sort descending by score (stable) and
return the first `top_k`.  The `except` branch (e.g. a missing matrix or
an out-of-range chunk index) also returns `[]`. -/
def search (sim : String → V → ℚ) (st : VStore V) (query : String)
    (top_k : ℕ) (min_score : ℚ) : List SRes :=
  if !st.is_fitted || (pyStrip query).isEmpty then []
  else
    match st.document_vectors with
    | none => []
    | some rows =>
      if st.chunks.length < (rows.map (sim query)).length then []
      else addRanks 0
        ((pySortDesc (buildResults st.chunks min_score 0 (rows.map (sim query)))).take top_k)

/-- `f"[From {doc_name}]: {chunk_text}"`.  The stored chunks always carry
`document_name`, so the `.get(..., "Unknown")` default never fires. -/
def fmtChunk (r : SRes) : String :=
  "[From " ++ r.chunk.document_name ++ "]: " ++ r.chunk.text

/-- The context accumulation loop: add whole formatted chunks while they
fit; the first overflowing chunk is truncated (keeping 20 characters of
headroom plus an ellipsis) provided more than 100 characters remain, and
the loop stops there. -/
def contextLoop (maxLen : ℤ) : List SRes → ℤ → List String
  | [], _ => []
  | r :: rs, total =>
    if maxLen < total + ((fmtChunk r).length : ℤ) then
      if 100 < maxLen - total - 20 then
        [String.mk ((fmtChunk r).data.take (maxLen - total - 20).toNat) ++ "..."]
      else []
    else fmtChunk r :: contextLoop maxLen rs (total + ((fmtChunk r).length : ℤ))

/-- Model of the `f"{best_score:.2f}"` float formatting (two decimals). -/
def fmt2 (q : ℚ) : String :=
  let n : ℤ := round (q * 100)
  toString (n / 100) ++ "." ++
    (let f := (n % 100).toNat
     (if f < 10 then "0" else "") ++ toString f)

def noContextMsg : String :=
  "No relevant context found in the uploaded documents."

/-- `get_context_for_query`: search with `top_k=5, min_score=0.05`; the
sentinel when nothing matched, otherwise the confidence header plus the
accumulated context parts. -/
def get_context_for_query (sim : String → V → ℚ) (st : VStore V)
    (query : String) (max_context_length : ℤ) : String :=
  let rs := search sim st query 5 ((5 : ℚ)/100)
  match rs with
  | [] => noContextMsg
  | best :: _ =>
    let parts := contextLoop max_context_length rs 0
    let context := String.intercalate "\n\n" parts
    "Relevant information from documents (confidence: " ++ fmt2 best.score ++
      "):\n\n" ++ context

structure VStats where
  total_chunks : ℕ
  total_documents : ℕ
  vocabulary_size : ℕ
  is_ready : Bool
  document_names : List String
deriving DecidableEq

/-- `get_statistics` (the Python `set` of names is modelled as `dedup`). -/
def get_statistics (st : VStore V) : VStats :=
  if !st.is_fitted then ⟨0, 0, 0, false, []⟩
  else
    let names := (st.chunks.map EChunk.document_name).dedup
    ⟨st.chunks.length, names.length, st.vocab.length, true, names⟩

/-- The index comprehension `[i for i, chunk in enumerate(self.chunks) if
chunk.get("document_name") == document_name]`. -/
def idxOfName (x : String) : ℕ → List EChunk → List ℕ
  | _, [] => []
  | n, c :: cs =>
    if c.document_name = x then n :: idxOfName x (n + 1) cs
    else idxOfName x (n + 1) cs

/-- Keep the elements whose position is not listed (the chunk filter and
the numpy boolean mask). -/
def dropAtIdxs {α : Type} (idxs : List ℕ) : ℕ → List α → List α
  | _, [] => []
  | n, a :: as =>
    if n ∈ idxs then dropAtIdxs idxs (n + 1) as
    else a :: dropAtIdxs idxs (n + 1) as

/-- `remove_document`: drop every chunk (and matrix row) of the document;
reset the whole store when it becomes empty.  If the numpy mask hit an
out-of-range index (only possible when the row/chunk invariant was already
broken) the `except` returns `False` after `self.chunks` was already
replaced. -/
def remove_document (st : VStore V) (document_name : String) :
    Bool × VStore V :=
  if !st.is_fitted then (false, st)
  else
    if (idxOfName document_name 0 st.chunks).isEmpty then (false, st)
    else
      match st.document_vectors with
      | none =>
        if (dropAtIdxs (idxOfName document_name 0 st.chunks) 0 st.chunks).isEmpty then
          (true, VStore.clear
            ⟨dropAtIdxs (idxOfName document_name 0 st.chunks) 0 st.chunks,
              none, st.is_fitted, st.vocab⟩)
        else
          (true, ⟨dropAtIdxs (idxOfName document_name 0 st.chunks) 0 st.chunks,
            none, st.is_fitted, st.vocab⟩)
      | some rows =>
        if (idxOfName document_name 0 st.chunks).all
            (fun i => decide (i < rows.length)) then
          if (dropAtIdxs (idxOfName document_name 0 st.chunks) 0 st.chunks).isEmpty then
            (true, VStore.clear
              ⟨dropAtIdxs (idxOfName document_name 0 st.chunks) 0 st.chunks,
                some (dropAtIdxs (idxOfName document_name 0 st.chunks) 0 rows),
                st.is_fitted, st.vocab⟩)
          else
            (true, ⟨dropAtIdxs (idxOfName document_name 0 st.chunks) 0 st.chunks,
              some (dropAtIdxs (idxOfName document_name 0 st.chunks) 0 rows),
              st.is_fitted, st.vocab⟩)
        else
          (false, ⟨dropAtIdxs (idxOfName document_name 0 st.chunks) 0 st.chunks,
            st.document_vectors, st.is_fitted, st.vocab⟩)

/-! ## `_split_into_chunks` (document_processor.py lines 186-225) -/

structure PyChunk where
  index : ℕ
  text : List Char
  start_pos : ℤ
  end_pos : ℤ
  word_count : ℕ
deriving DecidableEq

def isSentEnd (c : Char) : Bool :=
  c == '.' || c == '!' || c == '?'

/-- The look-back `for i in range(end, max(start+chunk_size-100, start), -1)`
loop: scan `count` positions downward from `i`, returning the first
sentence terminator. -/
def findSentDown (text : List Char) : ℤ → ℕ → Option ℤ
  | _, 0 => none
  | i, n + 1 =>
    if isSentEnd (pyCharAt text i) then some i
    else findSentDown text (i - 1) n

/-- The adjusted chunk end: the hard boundary `start + chunk_size`, pulled
back to just after the nearest sentence terminator within the 100-character
look-back window when this is not the last chunk. -/
def chunkEnd (text : List Char) (cs : ℤ) (start : ℤ) : ℤ :=
  if start + cs < (text.length : ℤ) then
    match findSentDown text (start + cs)
        (start + cs - max (start + cs - 100) start).toNat with
    | some i => i + 1
    | none => start + cs
  else start + cs

/-- One `while start < len(text)` loop, indexed by fuel; `none` means the
fuel was exhausted before the loop exited (the trailing
`if start >= len(text): break` repeats the guard and adds nothing). -/
def splitLoopFuel (text : List Char) (cs ov : ℤ) (fuel : ℕ) (start : ℤ)
    (acc : List PyChunk) : Option (List PyChunk) :=
  if start < (text.length : ℤ) then
    match fuel with
    | 0 => none
    | f + 1 =>
      let e := chunkEnd text cs start
      let ctext := stripChars (pySlice text start e)
      let acc2 :=
        if ctext.isEmpty then acc
        else acc ++ [⟨acc.length, ctext, start, e, wordCount ctext⟩]
      splitLoopFuel text cs ov f (max (start + cs - ov) e) acc2
  else some acc

/-- `_split_into_chunks` with enough fuel for any terminating run (the
start position advances by at least one per iteration whenever the loop
terminates at all, so `length + 1` iterations always suffice). -/
def split_into_chunks (text : List Char) (cs ov : ℤ) : Option (List PyChunk) :=
  if text.isEmpty then some []
  else splitLoopFuel text cs ov (text.length + 1) 0 []

/-- Non-termination of the chunking loop, expressed over the fuel-indexed
model: every finite fuel is exhausted. -/
def splitLoopDiverges (text : List Char) (cs ov : ℤ) : Prop :=
  ∀ fuel, splitLoopFuel text cs ov fuel 0 [] = none

/-! ## Lemmas about `search` (ranking, filtering, stability) -/

/-- The ranking order search results must satisfy: strictly greater score
first, ties by original chunk index. -/
def resRel (a b : SRes) : Prop :=
  b.score < a.score ∨ (a.score = b.score ∧ a.idx < b.idx)

theorem mem_buildResults {chunks : List EChunk} {ms : ℚ} :
    ∀ {ss : List ℚ} {i : ℕ} {r : SRes}, r ∈ buildResults chunks ms i ss →
      ms ≤ r.score ∧ r.chunk ∈ chunks ∧ i ≤ r.idx := by
  intro ss
  induction ss with
  | nil => intro i r h; simp [buildResults] at h
  | cons s rest ih =>
    intro i r h
    rw [buildResults] at h
    split at h
    case isTrue hms =>
      split at h
      case h_1 c hc =>
        rcases List.mem_cons.mp h with h0 | h0
        · subst h0
          exact ⟨hms, List.get?_mem hc, Nat.le_refl _⟩
        · have := ih h0
          exact ⟨this.1, this.2.1, Nat.le_of_succ_le this.2.2⟩
      case h_2 =>
        have := ih h
        exact ⟨this.1, this.2.1, Nat.le_of_succ_le this.2.2⟩
    case isFalse =>
      have := ih h
      exact ⟨this.1, this.2.1, Nat.le_of_succ_le this.2.2⟩

theorem buildResults_pairwise_idx (chunks : List EChunk) (ms : ℚ) :
    ∀ (ss : List ℚ) (i : ℕ),
      (buildResults chunks ms i ss).Pairwise (fun a b => a.idx < b.idx) := by
  intro ss
  induction ss with
  | nil => intro i; simp [buildResults]
  | cons s rest ih =>
    intro i
    rw [buildResults]
    split
    · split
      · refine List.Pairwise.cons ?_ (ih (i + 1))
        intro b hb
        exact Nat.lt_of_lt_of_le (Nat.lt_succ_self i) (mem_buildResults hb).2.2
      · exact ih (i + 1)
    · exact ih (i + 1)

theorem mem_insertScoreDesc {x z : SRes} :
    ∀ {l : List SRes}, z ∈ insertScoreDesc x l → z = x ∨ z ∈ l := by
  intro l
  induction l with
  | nil => intro h; simp [insertScoreDesc] at h; exact Or.inl h
  | cons y ys ih =>
    intro h
    rw [insertScoreDesc] at h
    split at h
    · rcases List.mem_cons.mp h with h0 | h0
      · exact Or.inr (List.mem_cons.mpr (Or.inl h0))
      · rcases ih h0 with h1 | h1
        · exact Or.inl h1
        · exact Or.inr (List.mem_cons.mpr (Or.inr h1))
    · rcases List.mem_cons.mp h with h0 | h0
      · exact Or.inl h0
      · exact Or.inr h0

theorem insertScoreDesc_pairwise {x : SRes} :
    ∀ {l : List SRes}, l.Pairwise resRel → (∀ y ∈ l, y.idx < x.idx) →
      (insertScoreDesc x l).Pairwise resRel := by
  intro l
  induction l with
  | nil => intro _ _; simp [insertScoreDesc, List.Pairwise]
  | cons y ys ih =>
    intro hp hidx
    rw [insertScoreDesc]
    rcases List.pairwise_cons.mp hp with ⟨hyall, hys⟩
    split
    · rename_i hle
      refine List.pairwise_cons.mpr
        ⟨?_, ih hys (fun z hz => hidx z (List.mem_cons.mpr (Or.inr hz)))⟩
      intro z hz
      rcases mem_insertScoreDesc hz with h0 | h0
      · subst h0
        rcases lt_or_eq_of_le hle with h1 | h1
        · exact Or.inl h1
        · exact Or.inr ⟨h1.symm, hidx y (List.mem_cons_self _ _)⟩
      · exact hyall z h0
    · rename_i hgt
      push_neg at hgt
      refine List.pairwise_cons.mpr ⟨?_, hp⟩
      intro z hz
      rcases List.mem_cons.mp hz with h0 | h0
      · subst h0; exact Or.inl hgt
      · rcases hyall z h0 with h1 | h1
        · exact Or.inl (lt_trans h1 hgt)
        · exact Or.inl (h1.1 ▸ hgt)

theorem insertScoreDesc_perm (x : SRes) :
    ∀ (l : List SRes), List.Perm (insertScoreDesc x l) (x :: l) := by
  intro l
  induction l with
  | nil => simp [insertScoreDesc]
  | cons y ys ih =>
    rw [insertScoreDesc]
    split
    · exact ((ih.cons y).trans (List.Perm.swap x y ys)).symm.symm
    · exact List.Perm.refl _

theorem foldl_insert_perm :
    ∀ (l acc : List SRes),
      List.Perm (l.foldl (fun a x => insertScoreDesc x a) acc) (acc ++ l) := by
  intro l
  induction l with
  | nil => intro acc; simp
  | cons x rest ih =>
    intro acc
    have h1 := ih (insertScoreDesc x acc)
    have h2 : List.Perm (insertScoreDesc x acc ++ rest) (acc ++ x :: rest) := by
      have h3 : List.Perm (insertScoreDesc x acc ++ rest) ((x :: acc) ++ rest) :=
        (insertScoreDesc_perm x acc).append_right rest
      exact h3.trans (List.perm_middle.symm)
    simpa [List.foldl] using h1.trans h2

theorem pySortDesc_perm (l : List SRes) : List.Perm (pySortDesc l) l := by
  simpa [pySortDesc] using foldl_insert_perm l []

theorem foldl_insert_pairwise :
    ∀ (l acc : List SRes), l.Pairwise (fun a b => a.idx < b.idx) →
      acc.Pairwise resRel → (∀ y ∈ acc, ∀ x ∈ l, y.idx < x.idx) →
      (l.foldl (fun a x => insertScoreDesc x a) acc).Pairwise resRel := by
  intro l
  induction l with
  | nil => intro acc _ hacc _; simpa using hacc
  | cons x rest ih =>
    intro acc hl hacc hcross
    rcases List.pairwise_cons.mp hl with ⟨hxall, hrest⟩
    simp only [List.foldl]
    refine ih _ hrest ?_ ?_
    · exact insertScoreDesc_pairwise hacc
        (fun y hy => hcross y hy x (List.mem_cons_self _ _))
    · intro y hy z hz
      rcases mem_insertScoreDesc hy with h0 | h0
      · subst h0; exact hxall z hz
      · exact hcross y h0 z (List.mem_cons.mpr (Or.inr hz))

theorem pySortDesc_pairwise {l : List SRes}
    (h : l.Pairwise (fun a b => a.idx < b.idx)) :
    (pySortDesc l).Pairwise resRel := by
  have := foldl_insert_pairwise l [] h (by simp) (by simp)
  simpa [pySortDesc] using this

theorem mem_addRanks {z : SRes} :
    ∀ {l : List SRes} {i : ℕ}, z ∈ addRanks i l →
      ∃ r ∈ l, z.idx = r.idx ∧ z.score = r.score ∧ z.chunk = r.chunk := by
  intro l
  induction l with
  | nil => intro i h; simp [addRanks] at h
  | cons r rs ih =>
    intro i h
    rw [addRanks] at h
    rcases List.mem_cons.mp h with h0 | h0
    · exact ⟨r, List.mem_cons_self _ _, by subst h0; exact ⟨rfl, rfl, rfl⟩⟩
    · rcases ih h0 with ⟨r0, hr0, he⟩
      exact ⟨r0, List.mem_cons.mpr (Or.inr hr0), he⟩

theorem addRanks_pairwise :
    ∀ {l : List SRes} {i : ℕ}, l.Pairwise resRel →
      (addRanks i l).Pairwise resRel := by
  intro l
  induction l with
  | nil => intro i _; simp [addRanks, List.Pairwise]
  | cons r rs ih =>
    intro i h
    rcases List.pairwise_cons.mp h with ⟨hall, hrs⟩
    rw [addRanks]
    refine List.pairwise_cons.mpr ⟨?_, ih hrs⟩
    intro z hz
    rcases mem_addRanks hz with ⟨r0, hr0, hidx, hscore, _⟩
    have := hall r0 hr0
    unfold resRel at this ⊢
    rw [hidx, hscore]
    simpa using this

theorem addRanks_length : ∀ (l : List SRes) (i : ℕ), (addRanks i l).length = l.length := by
  intro l
  induction l with
  | nil => intro i; simp [addRanks]
  | cons r rs ih => intro i; simp [addRanks, ih]

/-- Every search result comes from the row enumeration: its score clears
the threshold and its chunk is one of the stored chunks. -/
theorem search_mem {V : Type} {sim : String → V → ℚ} {st : VStore V}
    {q : String} {tk : ℕ} {ms : ℚ} {r : SRes}
    (h : r ∈ search sim st q tk ms) : ms ≤ r.score ∧ r.chunk ∈ st.chunks := by
  rw [search] at h
  split at h
  · simp at h
  · split at h
    · simp at h
    · split at h
      · simp at h
      · rcases mem_addRanks h with ⟨r0, hr0, _, hscore, hchunk⟩
        have hr1 := (pySortDesc_perm _).mem_iff.mp (List.mem_of_mem_take hr0)
        have := mem_buildResults hr1
        exact ⟨hscore ▸ this.1, hchunk ▸ this.2.1⟩

/-- Search results are sorted: strictly descending score, ties in
original chunk order. -/
theorem search_pairwise {V : Type} (sim : String → V → ℚ) (st : VStore V)
    (q : String) (tk : ℕ) (ms : ℚ) :
    (search sim st q tk ms).Pairwise resRel := by
  rw [search]
  split
  · simp
  · split
    · simp
    · split
      · simp
      · exact addRanks_pairwise
          (List.Pairwise.sublist (List.take_sublist _ _)
            (pySortDesc_pairwise (buildResults_pairwise_idx st.chunks ms _ 0)))

/-- Search returns at most `top_k` results. -/
theorem search_length {V : Type} (sim : String → V → ℚ) (st : VStore V)
    (q : String) (tk : ℕ) (ms : ℚ) :
    (search sim st q tk ms).length ≤ tk := by
  rw [search]
  split
  · simp
  · split
    · simp
    · split
      · simp
      · rw [addRanks_length]
        exact List.length_take_le _ _

/-! ## Concrete fixtures used by the witness theorems -/

def fitVW : List String → List String := fun ts => ts

def fitTW : List String → List ℚ := fun ts => ts.map (fun s => (s.length : ℚ))

def transW : List String → List ℚ := fun ts => ts.map (fun s => (s.length : ℚ))

def simW : String → ℚ → ℚ := fun _ v => v

def chunkW1 : EChunk := ⟨"cat text", "a.txt", "Text File", 0⟩

def chunkW2 : EChunk := ⟨"dog text long", "a.txt", "Text File", 1⟩

def chunkW3 : EChunk := ⟨"bird text", "b.txt", "Text File", 2⟩

def stW : VStore ℚ :=
  ⟨[chunkW1, chunkW2, chunkW3], some [8, 13, 8], true, ["cat", "dog"]⟩

/-! ## Claim C4 -/

/-- C4: for every fitted index, query, `top_k` and `min_score`, every
entry returned by `search` scores at least `min_score`, the list is
sorted in strictly descending score order with ties broken by original
chunk order (stability), and its length is at most `top_k`. -/
theorem C4_search_ranking {V : Type} (sim : String → V → ℚ) (st : VStore V)
    (q : String) (tk : ℕ) (ms : ℚ) :
    (∀ r ∈ search sim st q tk ms, ms ≤ r.score) ∧
    (search sim st q tk ms).Pairwise resRel ∧
    (search sim st q tk ms).length ≤ tk :=
  ⟨fun _ hr => (search_mem hr).1, search_pairwise sim st q tk ms,
    search_length sim st q tk ms⟩

/-- Witness for C4 on a concrete three-chunk store with a score tie
(rows score 8, 13, 8; the two ties keep chunk order 0 before 2 and the
cap keeps only two results). -/
theorem C4_search_ranking_witness :
    ((∀ r ∈ search simW stW "query" 2 5, (5 : ℚ) ≤ r.score) ∧
      (search simW stW "query" 2 5).Pairwise resRel ∧
      (search simW stW "query" 2 5).length ≤ 2) ∧
    (search simW stW "query" 2 5).map (fun r => (r.idx, r.rank)) = [(1, 1), (0, 2)] :=
  ⟨C4_search_ranking simW stW "query" 2 5, by decide⟩

/-! ## Claim C10 -/

/-- C10: `search` on an empty or whitespace-only query returns `[]` for
every store (fitted or not); the embedding is a pure function of the
store, mirroring the source method, which never assigns any attribute of
`self`, so no mutation is possible, and the guard returns before any
fallible operation runs. -/
theorem C10_empty_query_search {V : Type} (sim : String → V → ℚ)
    (st : VStore V) (q : String) (tk : ℕ) (ms : ℚ)
    (h : pyStrip q = "") : search sim st q tk ms = [] := by
  rw [search]
  have he : (pyStrip q).isEmpty = true := by rw [h]; rfl
  simp [he]

/-- Witness for C10: a whitespace-only query against the fitted store. -/
theorem C10_empty_query_search_witness :
    search simW stW "   " 3 0 = [] :=
  C10_empty_query_search simW stW "   " 3 0 (by decide)

/-! ## Claim C6 -/

/-- The malformed inputs named by the claim: missing/false `success`,
missing or empty `chunks`, a chunk without its `text`, or missing
document metadata. -/
def MalformedDoc (doc : DocInfo) : Prop :=
  doc.success.getD false = false ∨ doc.chunks = none ∨ doc.chunks = some [] ∨
  (∃ cs, doc.chunks = some cs ∧ ∃ c ∈ cs, c.text = none) ∨
  doc.filename = none ∨ doc.file_type = none

theorem textsOf_none {cs : List CIn} (h : ∃ c ∈ cs, c.text = none) :
    textsOf cs = none := by
  induction cs with
  | nil => simp at h
  | cons c0 rest ih =>
    rcases h with ⟨c, hc, htext⟩
    rcases List.mem_cons.mp hc with h0 | h0
    · subst h0
      rw [textsOf, htext]
    · rw [textsOf]
      rw [ih ⟨c, h0, htext⟩]
      cases c0.text <;> rfl

/-- C6: `add_document` on a malformed document returns failure and leaves
the store exactly as it was (every dict read the source performs happens
before any assignment to `self`). -/
theorem C6_add_document_atomic {V : Type} (fitV : List String → List String)
    (fitT trans : List String → List V) (st : VStore V) (doc : DocInfo)
    (h : MalformedDoc doc) :
    add_document fitV fitT trans st doc = (false, st) := by
  obtain ⟨osucc, ochunks, ofn, oft⟩ := doc
  rcases h with h | h | h | ⟨cs, hcs, hex⟩ | h | h
  · simp only at h
    simp [add_document, h]
  · simp only at h
    subst h
    cases hsucc : osucc.getD false <;> simp [add_document, hsucc]
  · simp only at h
    subst h
    cases hsucc : osucc.getD false <;> simp [add_document, hsucc]
  · simp only at hcs
    subst hcs
    cases hsucc : osucc.getD false
    · simp [add_document, hsucc]
    · cases cs with
      | nil => simp [add_document, hsucc]
      | cons c0 rest => simp [add_document, hsucc, textsOf_none hex]
  · simp only at h
    subst h
    cases hsucc : osucc.getD false
    · simp [add_document, hsucc]
    · cases ochunks with
      | none => simp [add_document, hsucc]
      | some cs =>
        cases cs with
        | nil => simp [add_document, hsucc]
        | cons c0 rest =>
          cases ht : textsOf (c0 :: rest) with
          | none => simp [add_document, hsucc, ht]
          | some texts => simp [add_document, hsucc, ht]
  · simp only at h
    subst h
    cases hsucc : osucc.getD false
    · simp [add_document, hsucc]
    · cases ochunks with
      | none => simp [add_document, hsucc]
      | some cs =>
        cases cs with
        | nil => simp [add_document, hsucc]
        | cons c0 rest =>
          cases ht : textsOf (c0 :: rest) with
          | none => simp [add_document, hsucc, ht]
          | some texts =>
            cases ofn with
            | none => simp [add_document, hsucc, ht]
            | some fn => simp [add_document, hsucc, ht]

/-- Witness for C6: a document with chunks but no `filename` key is
rejected and the store is returned untouched. -/
theorem C6_add_document_atomic_witness :
    add_document fitVW fitTW transW stW
      ⟨some true, some [⟨some "x"⟩], none, some "Text File"⟩ = (false, stW) :=
  C6_add_document_atomic fitVW fitTW transW stW _
    (Or.inr (Or.inr (Or.inr (Or.inr (Or.inl rfl)))))

/-! ## Claim C7 -/

theorem mem_idxOfName_le {x : String} :
    ∀ {l : List EChunk} {n m : ℕ}, m ∈ idxOfName x n l → n ≤ m := by
  intro l
  induction l with
  | nil => intro n m h; simp [idxOfName] at h
  | cons c rest ih =>
    intro n m h
    rw [idxOfName] at h
    split at h
    · rcases List.mem_cons.mp h with h0 | h0
      · omega
      · have := ih h0; omega
    · have := ih h; omega

/-- Dropping exactly the positions listed by `idxOfName` removes exactly
the chunks of the named document. -/
theorem dropAt_idxOfName_names {x : String} :
    ∀ (l : List EChunk) (n : ℕ) (idxs : List ℕ),
      (∀ m, n ≤ m → (m ∈ idxs ↔ m ∈ idxOfName x n l)) →
      ∀ c ∈ dropAtIdxs idxs n l, c.document_name ≠ x := by
  intro l
  induction l with
  | nil => intro n idxs _ c hc; simp [dropAtIdxs] at hc
  | cons c0 rest ih =>
    intro n idxs hprop c hc
    rw [dropAtIdxs] at hc
    by_cases hname : c0.document_name = x
    · have hmem : n ∈ idxs := by
        rw [hprop n (Nat.le_refl n), idxOfName, if_pos hname]
        exact List.mem_cons_self _ _
      rw [if_pos hmem] at hc
      refine ih (n + 1) idxs ?_ c hc
      intro m hm
      rw [hprop m (by omega), idxOfName, if_pos hname]
      constructor
      · intro h0
        rcases List.mem_cons.mp h0 with h1 | h1
        · omega
        · exact h1
      · intro h0; exact List.mem_cons.mpr (Or.inr h0)
    · have hnin : n ∉ idxs := by
        rw [hprop n (Nat.le_refl n), idxOfName, if_neg hname]
        intro hmem
        have := mem_idxOfName_le hmem
        omega
      rw [if_neg hnin] at hc
      rcases List.mem_cons.mp hc with h0 | h0
      · subst h0; exact hname
      · refine ih (n + 1) idxs ?_ c h0
        intro m hm
        rw [hprop m (by omega), idxOfName, if_neg hname]

/-- What a successful `remove_document` produces: the store was fitted,
and the result is either the fully reset store or keeps exactly the
chunks of the other documents. -/
theorem remove_document_true_spec {V : Type} {st st' : VStore V} {X : String}
    (h : remove_document st X = (true, st')) :
    st.is_fitted = true ∧
    (st' = VStore.empty V ∨
      (st'.is_fitted = true ∧
        st'.chunks = dropAtIdxs (idxOfName X 0 st.chunks) 0 st.chunks ∧
        st'.chunks ≠ [])) := by
  rw [remove_document] at h
  split at h
  · simp at h
  · rename_i hfit
    have hf : st.is_fitted = true := by
      revert hfit; cases st.is_fitted <;> simp
    refine ⟨hf, ?_⟩
    split at h
    · simp at h
    · rename_i hne
      split at h
      · split at h
        · have h2 := (Prod.mk.injEq _ _ _ _).mp h
          exact Or.inl h2.2.symm
        · rename_i hnemp
          have h2 := (Prod.mk.injEq _ _ _ _).mp h
          refine Or.inr ?_
          rw [← h2.2]
          refine ⟨hf, rfl, ?_⟩
          simpa using hnemp
      · split at h
        · split at h
          · have h2 := (Prod.mk.injEq _ _ _ _).mp h
            exact Or.inl h2.2.symm
          · rename_i hnemp
            have h2 := (Prod.mk.injEq _ _ _ _).mp h
            refine Or.inr ?_
            rw [← h2.2]
            refine ⟨hf, rfl, ?_⟩
            simpa using hnemp
        · simp at h

theorem count_map_name (l : List EChunk) (d : String) :
    (l.map EChunk.document_name).count d =
      (l.filter (fun c => c.document_name == d)).length := by
  rw [show (l.map EChunk.document_name).count d =
      (l.map EChunk.document_name).countP (· == d) from rfl]
  rw [List.countP_map]
  rw [List.countP_eq_length_filter]
  rfl

/-- A pure counting identity: summing per-document chunk counts over the
distinct document names recovers the total number of chunks. -/
theorem sum_name_counts (l : List EChunk) :
    (((l.map EChunk.document_name).dedup).map
      (fun d => (l.filter (fun c => c.document_name == d)).length)).sum =
      l.length := by
  have h1 := List.sum_map_count_dedup_eq_length (l.map EChunk.document_name)
  rw [List.length_map] at h1
  simp only [count_map_name] at h1
  exact h1

/-- A fresh fit: adding to an unfitted store (successfully) runs the
`fit_transform` branch, so the vocabulary comes from `fitV` on the new
chunk texts. -/
theorem add_on_unfitted {V : Type} (fitV : List String → List String)
    (fitT trans : List String → List V) (st : VStore V) (doc : DocInfo)
    (st'' : VStore V) (hnf : st.is_fitted = false)
    (h : add_document fitV fitT trans st doc = (true, st'')) :
    ∃ cs texts, doc.chunks = some cs ∧ textsOf cs = some texts ∧
      st''.vocab = fitV texts ∧ st''.document_vectors = some (fitT texts) := by
  rw [add_document] at h
  split at h
  · simp at h
  · split at h
    · simp at h
    · simp at h
    · rename_i cs0 hcs0
      split at h
      · simp at h
      · rename_i texts0 ht0
        split at h
        · rename_i fn ft hmeta
          split at h
          · have h2 := (Prod.mk.injEq _ _ _ _).mp h
            refine ⟨_, texts0, ?_, ht0, ?_, ?_⟩
            · exact hcs0
            · rw [← h2.2]
            · rw [← h2.2]
          · rename_i hfit
            rw [hnf] at hfit
            simp at hfit
        · simp at h

/-- C7: after a successful `remove_document X`, (a) no search result has
document name `X`; (b) `get_statistics().total_chunks` equals the sum of
the chunk counts of the remaining documents; (c) if the last document was
removed the store is fully reset, and the next successful add performs a
fresh vocabulary fit. -/
theorem C7_removal_correctness {V : Type} (st st' : VStore V) (X : String)
    (h : remove_document st X = (true, st')) :
    (∀ (sim : String → V → ℚ) (q : String) (tk : ℕ) (ms : ℚ),
      ∀ r ∈ search sim st' q tk ms, r.chunk.document_name ≠ X) ∧
    ((get_statistics st').total_chunks =
      (((st'.chunks.map EChunk.document_name).dedup).map
        (fun d => (st'.chunks.filter (fun c => c.document_name == d)).length)).sum) ∧
    (st'.chunks = [] → st' = VStore.empty V ∧
      ∀ (fitV : List String → List String) (fitT trans : List String → List V)
        (doc : DocInfo) (st'' : VStore V),
        add_document fitV fitT trans st' doc = (true, st'') →
        ∃ cs texts, doc.chunks = some cs ∧ textsOf cs = some texts ∧
          st''.vocab = fitV texts ∧ st''.document_vectors = some (fitT texts)) := by
  obtain ⟨hfit, hcases⟩ := remove_document_true_spec h
  have hclean : ∀ c ∈ st'.chunks, c.document_name ≠ X := by
    rcases hcases with h0 | ⟨_, hchunks, _⟩
    · rw [h0]; intro c hc; simp [VStore.empty] at hc
    · rw [hchunks]
      exact dropAt_idxOfName_names st.chunks 0 _ (fun m _ => Iff.rfl)
  refine ⟨?_, ?_, ?_⟩
  · intro sim q tk ms r hr
    exact hclean r.chunk (search_mem hr).2
  · rcases hcases with h0 | ⟨hfit', _, _⟩
    · rw [h0]
      rfl
    · rw [get_statistics]
      rw [hfit']
      simp [sum_name_counts]
  · intro hempty
    have h0 : st' = VStore.empty V := by
      rcases hcases with h0 | ⟨_, _, hne⟩
      · exact h0
      · exact absurd hempty hne
    refine ⟨h0, ?_⟩
    intro fitV fitT trans doc st'' hadd
    refine add_on_unfitted fitV fitT trans st' doc st'' ?_ hadd
    rw [h0]
    rfl

/-- Witness for C7: removing `a.txt` from the two-document store. -/
theorem C7_removal_correctness_witness :
    ((∀ (sim : String → ℚ → ℚ) (q : String) (tk : ℕ) (ms : ℚ),
      ∀ r ∈ search sim (remove_document stW "a.txt").2 q tk ms,
        r.chunk.document_name ≠ "a.txt") ∧
    ((get_statistics (remove_document stW "a.txt").2).total_chunks =
      ((((remove_document stW "a.txt").2.chunks.map EChunk.document_name).dedup).map
        (fun d => ((remove_document stW "a.txt").2.chunks.filter
          (fun c => c.document_name == d)).length)).sum) ∧
    ((remove_document stW "a.txt").2.chunks = [] →
      (remove_document stW "a.txt").2 = VStore.empty ℚ ∧
      ∀ (fitV : List String → List String) (fitT trans : List String → List ℚ)
        (doc : DocInfo) (st'' : VStore ℚ),
        add_document fitV fitT trans (remove_document stW "a.txt").2 doc = (true, st'') →
        ∃ cs texts, doc.chunks = some cs ∧ textsOf cs = some texts ∧
          st''.vocab = fitV texts ∧ st''.document_vectors = some (fitT texts))) ∧
    (get_statistics (remove_document stW "a.txt").2).total_chunks = 1 :=
  ⟨C7_removal_correctness stW (remove_document stW "a.txt").2 "a.txt" (by decide),
    by decide⟩

/-! ## Claim C9 -/

def sumLens (parts : List String) : ℤ :=
  (parts.map (fun p => (p.length : ℤ))).sum

/-- Every context part is a formatted chunk of some search result, either
whole or truncated (with more than 100 characters kept) and suffixed with
an ellipsis. -/
theorem contextLoop_shape (maxLen : ℤ) :
    ∀ (rs : List SRes) (total : ℤ) (p : String), p ∈ contextLoop maxLen rs total →
      ∃ r ∈ rs, p = fmtChunk r ∨
        ∃ n : ℕ, 100 < (n : ℤ) ∧
          p = String.mk ((fmtChunk r).data.take n) ++ "..." := by
  intro rs
  induction rs with
  | nil => intro total p hp; simp [contextLoop] at hp
  | cons r rest ih =>
    intro total p hp
    rw [contextLoop] at hp
    split at hp
    · split at hp
      · rename_i hover hrem
        have hp2 : p = String.mk ((fmtChunk r).data.take (maxLen - total - 20).toNat) ++ "..." := by
          simpa using hp
        refine ⟨r, List.mem_cons_self _ _,
          Or.inr ⟨(maxLen - total - 20).toNat, ?_, hp2⟩⟩
        rw [Int.toNat_of_nonneg (by omega)]
        omega
      · simp at hp
    · rcases List.mem_cons.mp hp with h0 | h0
      · exact ⟨r, List.mem_cons_self _ _, Or.inl h0⟩
      · rcases ih _ p h0 with ⟨r0, hr0, hc⟩
        exact ⟨r0, List.mem_cons.mpr (Or.inr hr0), hc⟩

/-- The accumulated context never exceeds the remaining budget. -/
theorem contextLoop_sum_le (maxLen : ℤ) :
    ∀ (rs : List SRes) (total : ℤ),
      contextLoop maxLen rs total = [] ∨
        sumLens (contextLoop maxLen rs total) ≤ maxLen - total := by
  intro rs
  induction rs with
  | nil => intro total; exact Or.inl rfl
  | cons r rest ih =>
    intro total
    rw [contextLoop]
    split
    · split
      · rename_i hover hrem
        refine Or.inr ?_
        have h1 : (String.mk ((fmtChunk r).data.take (maxLen - total - 20).toNat) ++
            ("..." : String)).length ≤ (maxLen - total - 20).toNat + 3 := by
          rw [String.length_append]
          have h2 : (String.mk ((fmtChunk r).data.take (maxLen - total - 20).toNat)).length
              = ((fmtChunk r).data.take (maxLen - total - 20).toNat).length := rfl
          rw [h2, List.length_take]
          have h3 : ("..." : String).length = 3 := rfl
          omega
        have h4 : ((maxLen - total - 20).toNat : ℤ) = maxLen - total - 20 :=
          Int.toNat_of_nonneg (by omega)
        simp only [sumLens, List.map_cons, List.map_nil, List.sum_cons, List.sum_nil,
          add_zero]
        omega
      · exact Or.inl rfl
    · rename_i hfits
      refine Or.inr ?_
      push_neg at hfits
      rcases ih (total + ((fmtChunk r).length : ℤ)) with h0 | h0
      · rw [h0]
        simp only [sumLens, List.map_cons, List.map_nil, List.sum_cons, List.sum_nil,
          add_zero]
        omega
      · simp only [sumLens, List.map_cons, List.sum_cons] at h0 ⊢
        omega

/-- The confidence header can never collide with the sentinel message. -/
theorem header_ne_noContext (conf tail : String) :
    "Relevant information from documents (confidence: " ++ conf ++ "):\n\n" ++ tail ≠
      noContextMsg := by
  intro h
  have h2 := congrArg String.data h
  rw [String.data_append, String.data_append, String.data_append] at h2
  rw [show ("Relevant information from documents (confidence: ").data =
      'R' :: ("elevant information from documents (confidence: ").data from rfl] at h2
  rw [show (noContextMsg).data =
      'N' :: ("o relevant context found in the uploaded documents.").data from rfl] at h2
  simp only [List.cons_append] at h2
  injection h2 with hc _
  exact absurd hc (by decide)

/-- C9: `get_context_for_query` returns the sentinel exactly when no chunk
matches; otherwise every context part is a matched chunk text prefixed
with its source document (whole, or truncated with an ellipsis when more
than 100 characters fit), and the total length of the parts never exceeds
`max_context_length`. -/
theorem C9_context_assembly {V : Type} (sim : String → V → ℚ) (st : VStore V)
    (q : String) (maxLen : ℤ) :
    (get_context_for_query sim st q maxLen = noContextMsg ↔
      search sim st q 5 ((5 : ℚ)/100) = []) ∧
    (∀ p ∈ contextLoop maxLen (search sim st q 5 ((5 : ℚ)/100)) 0,
      ∃ r ∈ search sim st q 5 ((5 : ℚ)/100), p = fmtChunk r ∨
        ∃ n : ℕ, 100 < (n : ℤ) ∧
          p = String.mk ((fmtChunk r).data.take n) ++ "...") ∧
    sumLens (contextLoop maxLen (search sim st q 5 ((5 : ℚ)/100)) 0) ≤ max maxLen 0 := by
  refine ⟨?_, ?_, ?_⟩
  · rw [get_context_for_query]
    cases hs : search sim st q 5 ((5 : ℚ)/100) with
    | nil => simp
    | cons best rest =>
      constructor
      · intro h
        exact absurd h (header_ne_noContext _ _)
      · intro h
        cases h
  · intro p hp
    exact contextLoop_shape maxLen _ 0 p hp
  · rcases contextLoop_sum_le maxLen (search sim st q 5 ((5 : ℚ)/100)) 0 with h0 | h0
    · rw [h0]
      simp [sumLens]
    · calc sumLens (contextLoop maxLen (search sim st q 5 ((5 : ℚ)/100)) 0)
          ≤ maxLen - 0 := h0
        _ = maxLen := by ring
        _ ≤ max maxLen 0 := le_max_left _ _

/-- Witness for C9: an empty store yields the sentinel. -/
theorem C9_context_assembly_witness :
    get_context_for_query simW (VStore.empty ℚ) "anything" 2000 = noContextMsg :=
  (C9_context_assembly simW (VStore.empty ℚ) "anything" 2000).1.mpr rfl

/-! ## Claim C5 -/

theorem findSentDown_bounds {text : List Char} :
    ∀ {n : ℕ} {i j : ℤ}, findSentDown text i n = some j →
      i - (n : ℤ) < j ∧ j ≤ i := by
  intro n
  induction n with
  | zero => intro i j h; simp [findSentDown] at h
  | succ m ih =>
    intro i j h
    rw [findSentDown] at h
    split at h
    · cases h
      constructor
      · push_cast
        omega
      · omega
    · have := ih h
      constructor
      · push_cast at this ⊢
        omega
      · omega

/-- With a positive chunk size the adjusted end is strictly beyond the
current start, so the loop makes forward progress. -/
theorem chunkEnd_gt (text : List Char) (cs start : ℤ) (hcs : 1 ≤ cs) :
    start < chunkEnd text cs start := by
  rw [chunkEnd]
  split
  · rename_i hlt
    cases hfind : findSentDown text (start + cs)
        ((start + cs - max (start + cs - 100) start).toNat) with
    | none =>
      show start < start + cs
      omega
    | some j =>
      show start < j + 1
      have hb := findSentDown_bounds hfind
      have hle : max (start + cs - 100) start ≤ start + cs :=
        max_le (by omega) (by omega)
      have hge : start ≤ max (start + cs - 100) start := le_max_right _ _
      have htn : (((start + cs - max (start + cs - 100) start).toNat : ℤ))
          = start + cs - max (start + cs - 100) start :=
        Int.toNat_of_nonneg (by omega)
      rw [htn] at hb
      omega
  · omega

/-- The loop terminates with strictly increasing chunk start positions,
whenever the chunk size is at least one. -/
theorem splitLoop_some (text : List Char) (cs ov : ℤ) (hcs : 1 ≤ cs) :
    ∀ (fuel : ℕ) (start : ℤ) (acc : List PyChunk),
      (text.length : ℤ) ≤ start + fuel →
      (∀ c ∈ acc, c.start_pos < start) →
      acc.Pairwise (fun a b => a.start_pos < b.start_pos) →
      ∃ out, splitLoopFuel text cs ov fuel start acc = some out ∧
        out.Pairwise (fun a b => a.start_pos < b.start_pos) := by
  intro fuel
  induction fuel with
  | zero =>
    intro start acc hf hacc hpw
    rw [splitLoopFuel]
    rw [if_neg (by push_cast at hf ⊢; omega)]
    exact ⟨acc, rfl, hpw⟩
  | succ f ih =>
    intro start acc hf hacc hpw
    rw [splitLoopFuel]
    split
    · rename_i hlt
      have hstep : start < chunkEnd text cs start := chunkEnd_gt text cs start hcs
      have hs' : start + 1 ≤ max (start + cs - ov) (chunkEnd text cs start) := by
        have := le_max_right (start + cs - ov) (chunkEnd text cs start)
        omega
      refine ih (max (start + cs - ov) (chunkEnd text cs start)) _ ?_ ?_ ?_
      · push_cast at hf ⊢
        omega
      · intro c hc
        split at hc
        · exact lt_of_lt_of_le (hacc c hc) (by omega)
        · rcases List.mem_append.mp hc with h0 | h0
          · exact lt_of_lt_of_le (hacc c h0) (by omega)
          · rcases List.mem_singleton.mp h0 with rfl
            simp only []
            omega
      · split
        · exact hpw
        · refine List.pairwise_append.mpr ⟨hpw, List.pairwise_singleton _ _, ?_⟩
          intro a ha b hb
          rcases List.mem_singleton.mp hb with rfl
          simp only []
          exact hacc a ha
    · exact ⟨acc, rfl, hpw⟩

/-- C5 (amended): for every text, every `chunk_size ≥ 1` and every
`chunk_overlap` (including overlap ≥ chunk_size and negative overlap),
`_split_into_chunks` terminates and the returned chunks' `start_pos`
values are strictly increasing. -/
theorem C5_chunking_progress (text : List Char) (cs ov : ℤ) (hcs : 1 ≤ cs) :
    ∃ out, split_into_chunks text cs ov = some out ∧
      out.Pairwise (fun a b => a.start_pos < b.start_pos) := by
  rw [split_into_chunks]
  split
  · exact ⟨[], rfl, List.Pairwise.nil⟩
  · exact splitLoop_some text cs ov hcs (text.length + 1) 0 []
      (by push_cast; omega) (by simp) List.Pairwise.nil

/-- Witness for C5 on the spec's example-style input. -/
theorem C5_chunking_progress_witness :
    ∃ out, split_into_chunks ("Hi. Bye.".data) 4 1 = some out ∧
      out.Pairwise (fun a b => a.start_pos < b.start_pos) :=
  C5_chunking_progress ("Hi. Bye.".data) 4 1 (by norm_num)

/-- Counterexample to C5 as stated: with `chunk_size = 0` (which satisfies
the claim's "overlap ≥ chunk_size" proviso with overlap 0) the loop makes
no progress on the two-character text "ab" — no amount of fuel ever
completes it, i.e. the Python `while` loop runs forever. -/
theorem C5_counterexample : splitLoopDiverges ("ab".data) 0 0 := by
  intro fuel
  induction fuel with
  | zero => decide
  | succ f ih =>
    have hstep : splitLoopFuel ("ab".data) 0 0 (f + 1) 0 [] =
        splitLoopFuel ("ab".data) 0 0 f 0 [] := rfl
    rw [hstep]
    exact ih

/-! ## Claim C3 -/

/-- The per-node bounds the builders enforce: a depth-3 level cap and the
40/30/25 name truncation for theme/subtopic/detail nodes. -/
def GoodNode (nd : MindMapNode) : Prop :=
  nd.level ≤ 3 ∧
  (nd.node_type = "theme" → jLen nd.name ≤ 40) ∧
  (nd.node_type = "subtopic" → jLen nd.name ≤ 30) ∧
  (nd.node_type = "detail" → jLen nd.name ≤ 25)

/-- Invariant of the node dict: every entry is a good node under a
hashable key, and keys are pairwise distinct. -/
def GoodMap (m : NodeMap) : Prop :=
  (∀ p ∈ m, GoodNode p.2 ∧ jHashable p.1 = true) ∧
  m.Pairwise (fun p q => jPrimEq p.1 q.1 = false)

theorem jPrimEq_iff (a b : JVal) :
    jPrimEq a b = true ↔ (a = b ∧ jHashable a = true) := by
  cases a <;> cases b <;> simp [jPrimEq, jHashable]

theorem nodeInsert_good {m : NodeMap} {k : JVal} {v : MindMapNode}
    (hm : GoodMap m) (hv : GoodNode v) (hk : jHashable k = true) :
    GoodMap (nodeInsert m k v) := by
  obtain ⟨hall, hpw⟩ := hm
  rw [nodeInsert]
  split
  · constructor
    · intro p hp
      rcases List.mem_map.mp hp with ⟨p0, hp0, hfp⟩
      by_cases he : jPrimEq p0.1 k = true
      · rw [if_pos he] at hfp
        rw [← hfp]
        exact ⟨hv, hk⟩
      · rw [if_neg he] at hfp
        rw [← hfp]
        exact hall p0 hp0
    · refine List.Pairwise.map _ ?_ hpw
      intro a b hab
      by_cases ha : jPrimEq a.1 k = true <;> by_cases hb : jPrimEq b.1 k = true
      · exfalso
        have h1 := (jPrimEq_iff _ _).mp ha
        have h2 := (jPrimEq_iff _ _).mp hb
        rw [h1.1, h2.1] at hab
        rw [(jPrimEq_iff k k).mpr ⟨rfl, hk⟩] at hab
        cases hab
      · rw [if_pos ha, if_neg hb]
        have h1 := (jPrimEq_iff _ _).mp ha
        rw [← h1.1]
        exact hab
      · rw [if_neg ha, if_pos hb]
        have h2 := (jPrimEq_iff _ _).mp hb
        rw [← h2.1]
        exact hab
      · rw [if_neg ha, if_neg hb]
        exact hab
  · rename_i hany
    constructor
    · intro p hp
      rcases List.mem_append.mp hp with h0 | h0
      · exact hall p h0
      · rw [List.mem_singleton.mp h0]
        exact ⟨hv, hk⟩
    · refine List.pairwise_append.mpr ⟨hpw, List.pairwise_singleton _ _, ?_⟩
      intro a ha b hb
      rw [List.mem_singleton.mp hb]
      have hfalse : ∀ p ∈ m, jPrimEq p.1 k = false := by
        intro p hp
        by_contra hcon
        apply hany
        rw [List.any_eq_true]
        exact ⟨p, hp, by revert hcon; cases jPrimEq p.1 k <;> simp⟩
      exact hfalse a ha

theorem jSlice_len {v w : JVal} {n : ℕ} (h : jSlice v n = some w) :
    jLen w ≤ n := by
  cases v <;> simp [jSlice] at h <;> rw [← h] <;> simp [jLen] <;> omega

theorem create_theme_node_good {td parent : JVal} {tn : MindMapNode}
    (h : create_theme_node td parent = some tn) :
    GoodNode tn ∧ tn.level = 1 := by
  rw [create_theme_node] at h
  simp only [Option.bind_eq_bind, Option.bind_eq_some] at h
  obtain ⟨idv, h1, namev, h2, name40, h3, sumv, h4, imp, h5, kws, h6, h7⟩ := h
  injection h7 with h7
  rw [← h7]
  refine ⟨⟨by norm_num, ?_, ?_, ?_⟩, rfl⟩
  · intro _
    exact jSlice_len h3
  · intro hc
    simp at hc
  · intro hc
    simp at hc

theorem create_subtopic_node_good {sd parent : JVal} {sn : MindMapNode}
    (h : create_subtopic_node sd parent = some sn) :
    GoodNode sn ∧ sn.level = 2 := by
  rw [create_subtopic_node] at h
  simp only [Option.bind_eq_bind, Option.bind_eq_some] at h
  obtain ⟨idv, h1, namev, h2, name30, h3, sumv, h4, imp, h5, kws, h6, h7⟩ := h
  injection h7 with h7
  rw [← h7]
  refine ⟨⟨by norm_num, ?_, ?_, ?_⟩, rfl⟩
  · intro hc
    simp at hc
  · intro _
    exact jSlice_len h3
  · intro hc
    simp at hc

theorem create_detail_node_good {dd parent : JVal} {dn : MindMapNode}
    (h : create_detail_node dd parent = some dn) :
    GoodNode dn ∧ dn.level = 3 := by
  rw [create_detail_node] at h
  simp only [Option.bind_eq_bind, Option.bind_eq_some] at h
  obtain ⟨idv, h1, namev, h2, name25, h3, sumv, h4, imp, h5, h6⟩ := h
  injection h6 with h6
  rw [← h6]
  refine ⟨⟨by norm_num, ?_, ?_, ?_⟩, rfl⟩
  · intro hc
    simp at hc
  · intro hc
    simp at hc
  · intro _
    exact jSlice_len h3

/-- Generic invariant preservation for `Option`-valued folds. -/
theorem foldlM_option_inv {α β : Type} (P : β → Prop) (f : β → α → Option β)
    (hstep : ∀ b a b', P b → f b a = some b' → P b') :
    ∀ (l : List α) (b b' : β), P b → l.foldlM f b = some b' → P b' := by
  intro l
  induction l with
  | nil =>
    intro b b' hb h
    simp only [List.foldlM_nil] at h
    cases h
    exact hb
  | cons a rest ih =>
    intro b b' hb h
    rw [List.foldlM_cons] at h
    cases hfa : f b a with
    | none => rw [hfa] at h; cases h
    | some b2 =>
      rw [hfa] at h
      exact ih b2 b' (hstep b a b2 hb hfa) h

theorem addDetailBranch_good {parent : JVal} {acc acc' : NodeMap × List MEdge}
    {dd : JVal} (hg : GoodMap acc.1)
    (h : addDetailBranch parent acc dd = some acc') : GoodMap acc'.1 := by
  rw [addDetailBranch] at h
  simp only [Option.bind_eq_bind, Option.bind_eq_some] at h
  obtain ⟨dn, hdn, h2⟩ := h
  split at h2
  · rename_i hhash
    injection h2 with h2
    rw [← h2]
    exact nodeInsert_good hg (create_detail_node_good hdn).1 hhash
  · cases h2

theorem addSubtopicBranch_good {parent : JVal} {acc acc' : NodeMap × List MEdge}
    {sd : JVal} (hg : GoodMap acc.1)
    (h : addSubtopicBranch parent acc sd = some acc') : GoodMap acc'.1 := by
  rw [addSubtopicBranch] at h
  simp only [Option.bind_eq_bind, Option.bind_eq_some] at h
  obtain ⟨sn, hsn, h2⟩ := h
  split at h2
  · rename_i hhash
    simp only [Option.bind_eq_bind, Option.bind_eq_some] at h2
    obtain ⟨detsv, h3, dets, h4, h5⟩ := h2
    exact foldlM_option_inv (fun acc0 => GoodMap acc0.1) _
      (fun b a b' hb hf => addDetailBranch_good hb hf) dets _ acc'
      (nodeInsert_good hg (create_subtopic_node_good hsn).1 hhash) h5
  · cases h2

theorem addThemeBranch_good {acc acc' : NodeMap × List MEdge} {td : JVal}
    (hg : GoodMap acc.1) (h : addThemeBranch acc td = some acc') :
    GoodMap acc'.1 := by
  rw [addThemeBranch] at h
  simp only [Option.bind_eq_bind, Option.bind_eq_some] at h
  obtain ⟨tn, htn, h2⟩ := h
  split at h2
  · rename_i hhash
    simp only [Option.bind_eq_bind, Option.bind_eq_some] at h2
    obtain ⟨subsv, h3, subs, h4, h5⟩ := h2
    exact foldlM_option_inv (fun acc0 => GoodMap acc0.1) _
      (fun b a b' hb hf => addSubtopicBranch_good hb hf) subs _ acc'
      (nodeInsert_good hg (create_theme_node_good htn).1 hhash) h5
  · cases h2

theorem goodMap_distinct {m : NodeMap} (h : GoodMap m) :
    m.Pairwise (fun p q => p.1 ≠ q.1) := by
  obtain ⟨hall, hpw⟩ := h
  refine hpw.imp_of_mem ?_
  intro p q hp hq hpe heq
  rw [heq] at hpe
  rw [(jPrimEq_iff q.1 q.1).mpr ⟨rfl, heq ▸ (hall p hp).2⟩] at hpe
  cases hpe

/-- C3 (amended): whatever validated-or-not structure reaches
`_build_node_graph`, if the build completes then every node's level is at
most 3, theme/subtopic/detail names are truncated to 40/30/25, and the
node ids (the dict keys) are pairwise distinct.  (Non-empty ids/names and
summary bounds do NOT hold; see the counterexample.) -/
theorem C3_node_invariants (data : JVal) (ns : NodeMap) (es : List MEdge)
    (h : build_node_graph data = some (ns, es)) :
    (∀ p ∈ ns, p.2.level ≤ 3 ∧
      (p.2.node_type = "theme" → jLen p.2.name ≤ 40) ∧
      (p.2.node_type = "subtopic" → jLen p.2.name ≤ 30) ∧
      (p.2.node_type = "detail" → jLen p.2.name ≤ 25)) ∧
    ns.Pairwise (fun p q => p.1 ≠ q.1) := by
  rw [build_node_graph] at h
  simp only [Option.bind_eq_bind, Option.bind_eq_some] at h
  obtain ⟨title, h1, themesv, h2, themes, h3, built, h4, connsv, h5, conns, h6, es2, h7, h8⟩ := h
  have hns : ns = built.1 := by
    injection h8 with h9
    exact ((Prod.mk.injEq _ _ _ _).mp h9).1.symm
  have hroot : GoodMap (nodeInsert [] (JVal.str "root") (rootNodeOf title)) := by
    refine nodeInsert_good ⟨by simp, List.Pairwise.nil⟩ ?_ rfl
    refine ⟨?_, ?_, ?_, ?_⟩
    · simp [rootNodeOf]
    all_goals intro hc
    all_goals exact absurd hc (by simp [rootNodeOf])
  have hbuilt : GoodMap built.1 :=
    foldlM_option_inv (fun acc0 => GoodMap acc0.1) _
      (fun b a b' hb hf => addThemeBranch_good hb hf) themes _ built hroot h4
  rw [hns]
  exact ⟨fun p hp => (hbuilt.1 p hp).1, goodMap_distinct hbuilt⟩

/-- The heuristic fallback always yields at least one theme (the default
theme when no line qualifies): the guarantee the spec's fallback clause is
about, shown here to document that `_fallback_structure_extraction` itself
honours it even though the pipeline never reaches it on parse failures. -/
theorem fallback_main_themes_nonempty (text : String) (titles : List String) :
    ∃ l, jIndex (fallback_structure_extraction text titles) "main_themes" =
      some (JVal.arr l) ∧ l ≠ [] := by
  rw [fallback_structure_extraction]
  refine ⟨_, rfl, ?_⟩
  split
  · simp
  · rename_i hne
    simp only [ne_eq, List.map_eq_nil_iff]
    revert hne
    cases fallbackThemesRaw text <;> simp

/-! ## Claims C1 and C2

`_process_structured_response` always returns a non-empty dict (validated
data or an `"error"` dict), which is truthy in Python, so the attempt loop
of `_extract_structured_data` returns whatever the first successful
gateway response produced — including error dicts.  Parse failures on a
`success=True` response therefore bypass both the remaining retries and
`_fallback_structure_extraction`, and `generate_mind_map` surfaces an
error, contradicting the fallback guarantee (C1) and the
no-caller-visible-error policy (C2). -/

def gwGarbage : ℕ → GwResp := fun _ => ⟨true, "this is not json at all"⟩

def gwMalformed : ℕ → GwResp := fun _ => ⟨true, "\x7bnot valid json]"⟩

/-- C1 (code bug): a gateway double that always succeeds with unparseable
garbage makes `generate_mind_map` return the error dict — the heuristic
fallback never runs and no outline with ≥ 1 theme is produced. -/
theorem C1_fallback_unreachable :
    generate_mind_map gwGarbage "Cats are mammals. Dogs bark." [] =
      GenResult.error "Failed to extract structured data from document" := rfl

/-- C2 (code bug): malformed model output alone (here, an unbalanced JSON
fragment on a successful response) surfaces to the caller as an error even
though the repair/retry/fallback strategies were not exhausted. -/
theorem C2_malformed_output_surfaces_error :
    generate_mind_map gwMalformed "A document about cats and dogs." [] =
      GenResult.error "Failed to extract structured data from document" := rfl

/-! ## Claim C8 -/

/-- C8 (amended): the repair pass returns already-valid JSON unchanged —
hence trivially semantically equivalent — whenever none of its three
rewrite patterns occurs in the text.  (On valid JSON the patterns can only
occur inside string literals; when one does, repair changes the parsed
value — see the counterexample.) -/
theorem C8_repair_identity (s : String) (hvalid : (parseJson s).isSome = true)
    (h1 : pat1Free s.data = true) (h2 : pat2Free s.data = true)
    (h3 : pat3Free s.data = true) :
    repair_json_content s = s ∧
    parseJson (repair_json_content s) = parseJson s := by
  have e : repair_json_content s = s := by
    rw [repair_json_content, repairSub1_id s.data h1, repairSub2_id s.data h2,
      repairSub3_id s.data h3]
  exact ⟨e, by rw [e]⟩

def jsonOkW : String := "\x7b\"a\": 1\x7d"

/-- Witness for C8 on a small pattern-free JSON object. -/
theorem C8_repair_identity_witness :
    repair_json_content jsonOkW = jsonOkW ∧
    parseJson (repair_json_content jsonOkW) = parseJson jsonOkW :=
  C8_repair_identity jsonOkW rfl (by decide) (by decide) (by decide)

def repairCexInput : String := "\x7b\"a\": \",\x7d\"\x7d"

/-- Field-level view of a parsed JSON object, used to compare parses. -/
def jStrField (v : Option JVal) (k : String) : Option String :=
  match v with
  | some (.obj fields) =>
    match jFind fields k with
    | some (.str s) => some s
    | _ => none
  | _ => none

/-- Counterexample to C8 as stated: the valid JSON `{"a": ",}"}` (whose
string value contains a comma before a closing brace) is rewritten by the
trailing-comma rule into `{"a": "}"}`, which parses to a different value —
repair is not round-trip safe on arbitrary valid JSON. -/
theorem C8_counterexample :
    (parseJson repairCexInput).isSome = true ∧
    jStrField (parseJson repairCexInput) "a" = some ",\x7d" ∧
    jStrField (parseJson (repair_json_content repairCexInput)) "a" = some "\x7d" ∧
    jStrField (parseJson (repair_json_content repairCexInput)) "a" ≠
      jStrField (parseJson repairCexInput) "a" :=
  ⟨rfl, rfl, rfl, by decide⟩

/-! ## Claim C3: witness and counterexample -/

def nodeFind (m : NodeMap) (k : JVal) : Option MindMapNode :=
  match m.find? (fun p => jPrimEq p.1 k) with
  | some p => some p.2
  | none => none

def c3WitnessData : JVal :=
  JVal.obj [("main_themes", JVal.arr [JVal.obj [("id", JVal.str "t1"),
    ("name", JVal.str "A theme name"), ("summary", JVal.str "S")]])]

def c3WitnessNodes : NodeMap :=
  [(JVal.str "root", rootNodeOf (JVal.str "Document Mind Map")),
   (JVal.str "t1", ⟨JVal.str "t1", JVal.str "A theme name", JVal.str "S", 1,
     some (JVal.str "root"), "theme", JVal.num ((8 : ℚ)/10), JVal.arr [], []⟩)]

def c3WitnessEdges : List MEdge :=
  [⟨JVal.str "root", JVal.str "t1", JVal.str "contains", JVal.num 1⟩]

/-- Witness for C3 (amended) on a well-formed one-theme structure. -/
theorem C3_node_invariants_witness :
    (∀ p ∈ c3WitnessNodes, p.2.level ≤ 3 ∧
      (p.2.node_type = "theme" → jLen p.2.name ≤ 40) ∧
      (p.2.node_type = "subtopic" → jLen p.2.name ≤ 30) ∧
      (p.2.node_type = "detail" → jLen p.2.name ≤ 25)) ∧
    c3WitnessNodes.Pairwise (fun p q => p.1 ≠ q.1) :=
  C3_node_invariants c3WitnessData c3WitnessNodes c3WitnessEdges rfl

def gwEmptyFields : ℕ → GwResp :=
  fun _ => ⟨true, "\x7b\"main_themes\": [\x7b\"id\": \"\", \"name\": \"\", \"summary\": \"\"\x7d]\x7d"⟩

def c3CexNode : MindMapNode :=
  ⟨JVal.str "", JVal.str "", JVal.str "", 1, some (JVal.str "root"), "theme",
    JVal.num ((8 : ℚ)/10), JVal.arr [], []⟩

/-- Counterexample to C3 as stated: a malformed-but-validated response with
empty `id`/`name`/`summary` strings passes `_validate_structured_data`
(which only checks key presence), and the returned tree contains a theme
node whose id and name are empty — refuting the non-empty id/name part of
the claim. -/
theorem C3_counterexample :
    nodeFind (resultNodes (generate_mind_map gwEmptyFields "Cats are mammals." []))
        (JVal.str "") = some c3CexNode ∧
    c3CexNode.id = JVal.str "" ∧ c3CexNode.name = JVal.str "" ∧
    jLen c3CexNode.name = 0 :=
  ⟨rfl, rfl, rfl, rfl⟩

end DocAnalyzer
